import Mathlib

/-!
# Wave-ordered scale-down of an Argo CD application

A shallow embedding of `internal/argocd/scale.go` (package `argocd`):
resource discovery (`getAppWorkloads`), the wave grouping and the wave
scheduler of `ScaleDownBySyncWave`, the replica patch
(`patchWorkloadReplicasZero`), the descendant test (`isChildNode`) and the
pod-drain poller (`waitPodsDeleted`).

Conventions of the embedding:
* Go `int64` sync waves are `Int` (they are only compared, never added);
* a Go `error` value is a `GoError`, `nil` is `none`;
* calls to the control plane and to the cluster are explicit inputs (the
  response each call gets) and explicit outputs (the list of calls issued);
* the recursion of `isChildNode` is not bounded in Go, so the embedding
  carries fuel and answers `none` when the fuel is used up.
-/

namespace ArgocdScale

/-! ## Data model -/

/-- Go `error` values: a leaf error with its text and whether the cluster API
classifies it as NotFound (`k8serrors.IsNotFound`), or an error produced by
`fmt.Errorf(text + "%w", inner)`. -/
inductive GoError where
  | leaf (msg : String) (notFound : Bool)
  | wrap (text : String) (inner : GoError)
deriving DecidableEq, Repr

/-- The method `Error()` of an error: its text. -/
def GoError.Error : GoError → String
  | .leaf msg _ => msg
  | .wrap text inner => text ++ inner.Error

/-- The test `k8serrors.IsNotFound`, which looks through wrapping. -/
def GoError.IsNotFound : GoError → Bool
  | .leaf _ nf => nf
  | .wrap _ inner => inner.IsNotFound

/-- The fields of `appv1.ResourceStatus` that `scale.go` reads. -/
structure ResourceStatus where
  Group : String
  Version : String
  Kind : String
  Namespace : String
  Name : String
  SyncWave : Int
deriving DecidableEq, Repr

/-- The fields of `appv1.ResourceRef` that `scale.go` reads. -/
structure ResourceRef where
  Group : String
  Kind : String
  Namespace : String
  Name : String
deriving DecidableEq, Repr

/-- A node of the live resource tree, `appv1.ResourceNode`: its own reference
and the references to its owners. -/
structure ResourceNode where
  Group : String
  Kind : String
  Namespace : String
  Name : String
  ParentRefs : List ResourceRef
deriving DecidableEq, Repr

/-- The tree `appv1.ApplicationTree`. -/
structure ApplicationTree where
  Nodes : List ResourceNode
  OrphanedNodes : List ResourceNode
deriving DecidableEq, Repr

/-- The fields of `appv1.Application` that `scale.go` reads:
`Status.Resources` and `Spec.Destination.Server`. -/
structure Application where
  Resources : List ResourceStatus
  Server : String
deriving DecidableEq, Repr

/-! ## Resource discovery -/

/-- The allow-list `canScaleWorkloads`, as the membership test
`_, ok := canScaleWorkloads[kind]`. -/
def canScaleWorkloads (kind : String) : Bool :=
  kind = "Deployment" || kind = "StatefulSet" || kind = "GameDeployment" ||
    kind = "GameStatefulSet"

/-- The comparison handed to `sort.Slice` in `getAppWorkloads`:
`workloads[i].SyncWave > workloads[j].SyncWave`. -/
def waveLess (a b : ResourceStatus) : Bool := decide (a.SyncWave > b.SyncWave)

/-- Inner loop of the insertion sort of Go's `sort` package
(`for j := i; j > a && less(j, j-1); j-- { swap(j, j-1) }`): the element `x`
moves left past every neighbour it is less than. The part already ordered is
held nearest neighbour first. -/
def sinkLeft {α : Type} (less : α → α → Bool) (x : α) : List α → List α
  | [] => [x]
  | y :: rest => if less x y then y :: sinkLeft less x rest else x :: y :: rest

/-- The library call `sort.Slice`, as the insertion sort Go runs on a slice of
at most 12 elements (`insertionSortLessFunc`). On longer slices Go runs a
pattern-defeating quicksort with the same contract; only the order among
elements that compare equal can differ. -/
def sortSlice {α : Type} (less : α → α → Bool) (xs : List α) : List α :=
  (xs.foldl (fun done x => sinkLeft less x done) []).reverse

/-- Discovery, `getAppWorkloads`: `newClient` is the error of
`NewApplicationClient` (if any), `get` the response of `appIf.Get`. -/
def getAppWorkloads (newClient : Option GoError) (get : Except GoError Application) :
    Except GoError (List ResourceStatus) :=
  match newClient with
  | some err => .error err
  | none =>
    match get with
    | .error err => .error err
    | .ok app =>
      let workloads := app.Resources.foldl
        (fun acc res => if canScaleWorkloads res.Kind then acc ++ [res] else acc) []
      .ok (sortSlice waveLess workloads)

/-! ## Wave grouping -/

/-- The loop variables of the grouping loop of `ScaleDownBySyncWave`. -/
structure GroupState where
  groups : List (List ResourceStatus)
  buf : List ResourceStatus
  currentWave : Int
deriving DecidableEq, Repr

/-- One iteration of the grouping loop. -/
def groupStep (st : GroupState) (w : ResourceStatus) : GroupState :=
  if w.SyncWave ≠ st.currentWave then
    { groups := if st.buf.length > 0 then st.groups ++ [st.buf] else st.groups
      buf := [w]
      currentWave := w.SyncWave }
  else
    { st with buf := st.buf ++ [w] }

/-- The grouping block of `ScaleDownBySyncWave` (source lines 205 to 224). -/
def groupWorkloads (workloads : List ResourceStatus) : List (List ResourceStatus) :=
  match workloads with
  | [] => []
  | w0 :: _ =>
    let st := workloads.foldl groupStep { groups := [], buf := [], currentWave := w0.SyncWave }
    if st.buf.length > 0 then st.groups ++ [st.buf] else st.groups


/-- What the grouping loop has produced so far: the closed groups followed by
the open one. -/
def GroupState.emitted (st : GroupState) : List ResourceStatus :=
  st.groups.flatten ++ st.buf

/-- The order between two wave groups: every member of the first has a
SyncWave strictly above every member of the second. -/
def WaveAbove (g h : List ResourceStatus) : Prop :=
  ∀ a ∈ g, ∀ b ∈ h, a.SyncWave > b.SyncWave

/-- All members of a group carry one SyncWave. -/
def OneWave (g : List ResourceStatus) : Prop :=
  ∀ a ∈ g, ∀ b ∈ g, a.SyncWave = b.SyncWave

/-- Invariant of the grouping loop on a list sorted by SyncWave
non-increasing. -/
structure GroupInv (st : GroupState) : Prop where
  nonempty : ∀ g ∈ st.groups, g ≠ []
  oneWave : ∀ g ∈ st.groups, OneWave g
  bufWave : ∀ a ∈ st.buf, a.SyncWave = st.currentWave
  above : st.groups.Pairwise WaveAbove
  aboveCurrent : ∀ g ∈ st.groups, ∀ a ∈ g, a.SyncWave > st.currentWave
  started : st.buf = [] → st.groups = []

/-! ## Replica patch -/

/-- The library call `strings.Contains` on the characters of the two texts:
`sub` starts at some position of the text. -/
def containsChars : List Char → List Char → Bool
  | [], sub => sub.isPrefixOf []
  | c :: cs, sub => sub.isPrefixOf (c :: cs) || containsChars cs sub

/-- The library call `strings.Contains(s, substr)`. -/
def stringsContains (s substr : String) : Bool := containsChars s.toList substr.toList

/-- The replica patch, `patchWorkloadReplicasZero`: `newClient` is the error of
`NewApplicationClient` (if any), `patchResource` the error of the
`PatchResource` call with the merge patch `{"spec": {"replicas": 0}}`
(if any). -/
def patchWorkloadReplicasZero (newClient : Option GoError) (patchResource : Option GoError) :
    Option GoError :=
  match newClient with
  | some err => some err
  | none =>
    match patchResource with
    | some err => if !stringsContains err.Error "not found as part" then some err else none
    | none => none

/-! ## Descendant test -/

/-- The library method `ApplicationTree.FindNode`: the first node among
`Nodes` followed by `OrphanedNodes` with the given group, kind, namespace and
name, or nil. -/
def ApplicationTree.FindNode (t : ApplicationTree) (group kind ns name : String) :
    Option ResourceNode :=
  (t.Nodes ++ t.OrphanedNodes).find?
    (fun n => n.Group = group && n.Kind = kind && n.Namespace = ns && n.Name = name)

/-- The loop over `node.ParentRefs` in `isChildNode`; `recur` is the recursive
call on the node a reference resolves to. An answer `none` of the recursive
call (no answer) is passed on. -/
def parentRefsLoop (tree : ApplicationTree) (parent : ResourceNode)
    (recur : Option ResourceNode → Option Bool) : List ResourceRef → Option Bool
  | [] => some false
  | pr :: rest =>
    if pr.Name = parent.Name ∧ pr.Kind = parent.Kind ∧ pr.Namespace = parent.Namespace ∧
        pr.Group = parent.Group then some true
    else
      match recur (tree.FindNode pr.Group pr.Kind pr.Namespace pr.Name) with
      | none => none
      | some true => some true
      | some false => parentRefsLoop tree parent recur rest

/-- The descendant test `isChildNode`. Go bounds the recursion by nothing but
the stack, so the first argument is the number of nested calls allowed and
the answer is `none` when they are used up. -/
def isChildNode : Nat → ApplicationTree → Option ResourceNode → Option ResourceNode → Option Bool
  | 0, _, _, _ => none
  | fuel + 1, tree, node, parent =>
    match node, parent with
    | none, _ => some false
    | some _, none => some false
    | some node, some parent =>
      if node.Name = parent.Name ∧ node.Kind = parent.Kind ∧
          node.Namespace = parent.Namespace ∧ node.Group = parent.Group then some true
      else
        parentRefsLoop tree parent (fun pn => isChildNode fuel tree pn (some parent))
          node.ParentRefs

/-- A node carries the identity of the target: same name, kind, namespace and
group. -/
def SameIdentity (node target : ResourceNode) : Prop :=
  node.Name = target.Name ∧ node.Kind = target.Kind ∧ node.Namespace = target.Namespace ∧
    node.Group = target.Group

/-- A parent reference carries the identity of the target. -/
def RefIs (pr : ResourceRef) (target : ResourceNode) : Prop :=
  pr.Name = target.Name ∧ pr.Kind = target.Kind ∧ pr.Namespace = target.Namespace ∧
    pr.Group = target.Group

/-- The description of a descendant in words: a chain of parent references
leads from the node to a reference with the identity of the target, every
reference before the last resolving to a node of the tree. -/
inductive OwnerChain (tree : ApplicationTree) (target : ResourceNode) : ResourceNode → Prop where
  | direct {node : ResourceNode} {pr : ResourceRef} :
      pr ∈ node.ParentRefs → RefIs pr target → OwnerChain tree target node
  | step {node pn : ResourceNode} {pr : ResourceRef} :
      pr ∈ node.ParentRefs → tree.FindNode pr.Group pr.Kind pr.Namespace pr.Name = some pn →
      OwnerChain tree target pn → OwnerChain tree target node

/-- The node `m` is what one of the parent references of `n` resolves to. -/
def ParentOf (tree : ApplicationTree) (m n : ResourceNode) : Prop :=
  ∃ pr ∈ n.ParentRefs, tree.FindNode pr.Group pr.Kind pr.Namespace pr.Name = some m

/-- The parent references of the tree are acyclic: no node is reached from
itself by following resolved parent references. -/
def Acyclic (tree : ApplicationTree) : Prop :=
  ∀ n, ¬ Relation.TransGen (ParentOf tree) n n

/-! ## Pod-drain poller -/

/-- What the poller does that is visible from outside: its calls to the
control plane and to the cluster, and its progress lines. -/
inductive Event where
  | resourceTree
  | allDeleted
  | remaining (pods : Nat)
  | getApp
  | newK8sClient (server : String)
  | forceDeleting (pods : Nat) (grace : Int)
  | deletePod (ns name : String) (grace : Int)
  | patchResource (w : ResourceStatus)
deriving DecidableEq, Repr

/-- What one round of the `select` in `waitPodsDeleted` meets: `ctxErr` is
`ctx.Err()` when the round takes the `ctx.Done()` case; otherwise the ticker
case runs, with `tree` the response of `ResourceTree`, `app` the response of
`appIf.Get`, `k8s` the error of `newK8sClient` (if any), and `delete i` the
error of the pod delete call number `i` of the round (if any). -/
structure TickInput where
  ctxErr : Option GoError
  tree : Except GoError ApplicationTree
  app : Except GoError Application
  k8s : Option GoError
  delete : Nat → Option GoError

/-- The variables `firstLoop` and `k8sCli` (nil or not) of `waitPodsDeleted`. -/
structure PollState where
  firstLoop : Bool
  haveK8sCli : Bool
deriving DecidableEq, Repr

/-- How one round ends: the loop goes on, the function returns, or the
descendant test gave no answer. -/
inductive TickResult where
  | next (st : PollState)
  | done (err : Option GoError)
  | stuck
deriving DecidableEq, Repr

/-- The loop over `tree.Nodes` in a tick (source lines 117 to 138): the pod
count and the pods kept, `none` when the descendant test gives no answer. -/
def collectPods (fuel : Nat) (tree : ApplicationTree) (parentNode : ResourceNode) :
    List ResourceNode → Nat × List ResourceNode → Option (Nat × List ResourceNode)
  | [], acc => some acc
  | node :: rest, acc =>
    if node.Kind ≠ "Pod" then collectPods fuel tree parentNode rest acc
    else
      match isChildNode fuel tree (some node) (some parentNode) with
      | none => none
      | some false => collectPods fuel tree parentNode rest acc
      | some true =>
        let skip := node.ParentRefs.any (fun p => p.Kind = "DaemonSet")
        if !skip then collectPods fuel tree parentNode rest (acc.1 + 1, acc.2 ++ [node])
        else collectPods fuel tree parentNode rest acc

/-- The delete loop of the force-delete pass (source lines 162 to 168), from
call number `i` on: the delete calls issued and the error returned, if any. -/
def forceDeleteLoop (delete : Nat → Option GoError) (grace : Int) :
    Nat → List ResourceNode → List Event × Option GoError
  | _, [] => ([], none)
  | i, p :: rest =>
    match delete i with
    | some delErr =>
      if !delErr.IsNotFound then
        ([Event.deletePod p.Namespace p.Name grace],
          some (GoError.wrap ("force delete pod " ++ p.Namespace ++ "/" ++ p.Name ++ " failed: ")
            delErr))
      else
        let r := forceDeleteLoop delete grace (i + 1) rest
        (Event.deletePod p.Namespace p.Name grace :: r.1, r.2)
    | none =>
      let r := forceDeleteLoop delete grace (i + 1) rest
      (Event.deletePod p.Namespace p.Name grace :: r.1, r.2)

/-- The force-delete block of a tick (source lines 146 to 170), entered with
`noGrace && firstLoop`. -/
def forceDelete (grace : Int) (st : PollState) (inp : TickInput)
    (podNodes : List ResourceNode) : List Event × TickResult :=
  match inp.app with
  | .error err => ([Event.getApp], .done (some err))
  | .ok app =>
    let build : List Event × Option GoError :=
      if st.haveK8sCli then ([], none) else ([Event.newK8sClient app.Server], inp.k8s)
    match build.2 with
    | some err => (Event.getApp :: build.1, .done (some err))
    | none =>
      let r := forceDeleteLoop inp.delete grace 0 podNodes
      let evs := Event.getApp :: build.1 ++ Event.forceDeleting podNodes.length grace :: r.1
      match r.2 with
      | some err => (evs, .done (some err))
      | none => (evs, .next { firstLoop := false, haveK8sCli := true })

/-- One round of the `for { select { ... } }` of `waitPodsDeleted`. -/
def tick (fuel : Nat) (parent : ResourceStatus) (noGrace : Bool) (grace : Int)
    (st : PollState) (inp : TickInput) : List Event × TickResult :=
  match inp.ctxErr with
  | some err => ([], .done (some err))
  | none =>
    match inp.tree with
    | .error err => ([Event.resourceTree], .done (some err))
    | .ok tree =>
      match tree.FindNode parent.Group parent.Kind parent.Namespace parent.Name with
      | none => ([Event.resourceTree], .done none)
      | some parentNode =>
        match collectPods fuel tree parentNode tree.Nodes (0, []) with
        | none => ([Event.resourceTree], .stuck)
        | some (pods, podNodes) =>
          if pods = 0 then ([Event.resourceTree, Event.allDeleted], .done none)
          else if noGrace && st.firstLoop then
            let r := forceDelete grace st inp podNodes
            (Event.resourceTree :: Event.remaining pods :: r.1, r.2)
          else ([Event.resourceTree, Event.remaining pods], .next st)

/-- How a run of the poller over the rounds given ends: it returned, it is
still polling, or the descendant test gave no answer. -/
inductive PollOutcome where
  | returned (err : Option GoError)
  | polling (st : PollState)
  | stuck
deriving DecidableEq, Repr

/-- The `for` loop of `waitPodsDeleted` over the rounds given: the events of
each round that ran, and how the run ends. -/
def pollLoop (fuel : Nat) (parent : ResourceStatus) (noGrace : Bool) (grace : Int) :
    PollState → List TickInput → List (List Event) × PollOutcome
  | st, [] => ([], .polling st)
  | st, inp :: rest =>
    match tick fuel parent noGrace grace st inp with
    | (evs, .next st2) =>
      let r := pollLoop fuel parent noGrace grace st2 rest
      (evs :: r.1, r.2)
    | (evs, .done err) => ([evs], .returned err)
    | (evs, .stuck) => ([evs], .stuck)

/-- The poller `waitPodsDeleted`: `newClient` is the error of
`NewApplicationClient` (if any), `ticks` the rounds of its loop. -/
def waitPodsDeleted (fuel : Nat) (newClient : Option GoError) (parent : ResourceStatus)
    (noGrace : Bool) (grace : Int) (ticks : List TickInput) :
    List (List Event) × PollOutcome :=
  match newClient with
  | some err => ([], .returned (some err))
  | none => pollLoop fuel parent noGrace grace { firstLoop := true, haveK8sCli := false } ticks

/-- An event is the opening of a force-delete pass. -/
def Event.isForcePass : Event → Bool
  | .forceDeleting _ _ => true
  | _ => false

/-- An event is the progress line of a round that found pods left. -/
def Event.isRemaining : Event → Bool
  | .remaining _ => true
  | _ => false

/-- An event is a pod delete call. -/
def Event.isDelete : Event → Bool
  | .deletePod _ _ _ => true
  | _ => false

/-! ## Wave scheduler -/

/-- What one task of a wave meets: the errors of `NewApplicationClient` and
of `PatchResource` in the patch (if any), the error of `NewApplicationClient`
in the poller (if any), the rounds of the poller, and the instant at which the
task returns, which orders the errors of the tasks of one group. -/
structure TaskInput where
  patchClient : Option GoError
  patchResource : Option GoError
  waitClient : Option GoError
  ticks : List TickInput
  finish : Nat

/-- The function handed to `g.Go` in `ScaleDownBySyncWave` for the workload
`w`: the patch, then the poller, each error wrapped with the workload's name.
The events are those of the patch followed by those of the poller. -/
def scaleTask (fuel : Nat) (noGrace : Bool) (grace : Int) (w : ResourceStatus)
    (inp : TaskInput) : List Event × PollOutcome :=
  let patchEvs : List Event :=
    match inp.patchClient with
    | some _ => []
    | none => [Event.patchResource w]
  match patchWorkloadReplicasZero inp.patchClient inp.patchResource with
  | some err =>
    (patchEvs, .returned (some (GoError.wrap
      ("patch " ++ w.Kind ++ "/" ++ w.Namespace ++ "/" ++ w.Name ++ " replicas=0: ") err)))
  | none =>
    let r := waitPodsDeleted fuel inp.waitClient w noGrace grace inp.ticks
    match r.2 with
    | .returned (some err) =>
      (patchEvs ++ r.1.flatten, .returned (some (GoError.wrap
        ("wait pods deleted for " ++ w.Kind ++ "/" ++ w.Namespace ++ "/" ++ w.Name ++ ": ")
        err)))
    | out => (patchEvs ++ r.1.flatten, out)

/-- How a run of the scheduler ends: it returned, or some task has not
returned on the rounds given. -/
inductive RunOutcome where
  | returned (err : Option GoError)
  | pending
deriving DecidableEq, Repr

/-- The error `errgroup` keeps: that of the failing task that returned first
(`errOnce`); on equal instants the task started first. -/
def firstError : List (Nat × GoError) → Option (Nat × GoError)
  | [] => none
  | (t, e) :: rest =>
    match firstError rest with
    | none => some (t, e)
    | some (t2, e2) => if t ≤ t2 then some (t, e) else some (t2, e2)

/-- The failing tasks among the results of a group, with their instants. -/
def taskFailures : List (Nat × PollOutcome) → List (Nat × GoError)
  | [] => []
  | (t, .returned (some e)) :: rest => (t, e) :: taskFailures rest
  | _ :: rest => taskFailures rest

/-- The library call `g.Wait()` of `errgroup`: it waits for every task of the
group and returns the first error, or nil. -/
def errgroupWait (results : List (Nat × PollOutcome)) : RunOutcome :=
  if results.all (fun r => match r.2 with | .returned _ => true | _ => false) then
    match firstError (taskFailures results) with
    | some (_, err) => .returned (some err)
    | none => .returned none
  else .pending

/-- The loop over the groups in `ScaleDownBySyncWave` (source lines 227 to
252): for each group run, the workloads of the group with the events of
their tasks, and how the run ends. The tasks of a group run concurrently; the
order of their events relative to one another is not recorded. -/
def runGroups (fuel : Nat) (noGrace : Bool) (grace : Int) (task : ResourceStatus → TaskInput) :
    List (List ResourceStatus) → List (List (ResourceStatus × List Event)) × RunOutcome
  | [] => ([], .returned none)
  | group :: rest =>
    if group.length = 0 then runGroups fuel noGrace grace task rest
    else
      let results := group.map (fun w => (w, scaleTask fuel noGrace grace w (task w)))
      let record := results.map (fun r => (r.1, r.2.1))
      match errgroupWait (results.map (fun r => ((task r.1).finish, r.2.2))) with
      | .returned none =>
        let r := runGroups fuel noGrace grace task rest
        (record :: r.1, r.2)
      | out => ([record], out)

/-- What a run of `ScaleDownBySyncWave` meets: the error of
`NewApplicationClient` (if any) and the response of `appIf.Get` in
discovery, and the input of the task of each workload. -/
structure RunInput where
  newClient : Option GoError
  get : Except GoError Application
  task : ResourceStatus → TaskInput

/-- The operation `ScaleDownBySyncWave`: discovery, grouping, then the groups
in order. -/
def ScaleDownBySyncWave (fuel : Nat) (inp : RunInput) (noGrace : Bool) (grace : Int) :
    List (List (ResourceStatus × List Event)) × RunOutcome :=
  match getAppWorkloads inp.newClient inp.get with
  | .error err => ([], .returned (some err))
  | .ok workloads => runGroups fuel noGrace grace inp.task (groupWorkloads workloads)

/-- How the task of a workload ends in a run. -/
def taskOutcome (fuel : Nat) (noGrace : Bool) (grace : Int) (task : ResourceStatus → TaskInput)
    (w : ResourceStatus) : PollOutcome :=
  (scaleTask fuel noGrace grace w (task w)).2

/-- The workloads of each group a run has started, group by group. -/
def startedGroups (run : List (List (ResourceStatus × List Event)) × RunOutcome) :
    List (List ResourceStatus) :=
  run.1.map (fun record => record.map Prod.fst)

/-! ## Sample trees -/

/-- A Deployment of the sample tree. -/
def sampleDeployment : ResourceNode :=
  { Group := "apps", Kind := "Deployment", Namespace := "game", Name := "lobby", ParentRefs := [] }

/-- A ReplicaSet owned by the sample Deployment. -/
def sampleReplicaSet : ResourceNode :=
  { Group := "apps", Kind := "ReplicaSet", Namespace := "game", Name := "lobby-7d9",
    ParentRefs := [{ Group := "apps", Kind := "Deployment", Namespace := "game", Name := "lobby" }] }

/-- A Pod owned by the sample ReplicaSet. -/
def samplePod : ResourceNode :=
  { Group := "", Kind := "Pod", Namespace := "game", Name := "lobby-7d9-x2k",
    ParentRefs := [{ Group := "apps", Kind := "ReplicaSet", Namespace := "game",
                     Name := "lobby-7d9" }] }

/-- The sample tree: Pod, owned by ReplicaSet, owned by Deployment. -/
def sampleTree : ApplicationTree :=
  { Nodes := [sampleDeployment, sampleReplicaSet, samplePod], OrphanedNodes := [] }

/-- The depth of a node of the sample tree below its root. -/
def sampleRank (n : ResourceNode) : Nat :=
  if n.Kind = "Pod" then 2 else if n.Kind = "ReplicaSet" then 1 else 0

/-! ## Pods a tick counts -/

/-- The pods a tick counts, as a test on one node: of Kind "Pod", a
descendant of the target by `isChildNode`, and without a parent reference of
Kind "DaemonSet". -/
def countedPod (fuel : Nat) (tree : ApplicationTree) (parentNode : ResourceNode)
    (n : ResourceNode) : Bool :=
  decide (n.Kind = "Pod") &&
    (decide (isChildNode fuel tree (some n) (some parentNode) = some true) &&
      !(n.ParentRefs.any (fun p => decide (p.Kind = "DaemonSet"))))

/-! ## Counting force-delete passes -/

/-- The number of force-delete passes opened among the events of one tick. -/
def passCount (evs : List Event) : Nat := (evs.filter Event.isForcePass).length

/-- The tick reported pods left: its events hold a line "Remaining pods". -/
def observedPods (evs : List Event) : Prop := ∃ k, 0 < k ∧ Event.remaining k ∈ evs

/-! ## Sample inputs of the poller -/

/-- The workload of the sample Deployment. -/
def sampleWorkload : ResourceStatus :=
  { Group := "apps", Version := "v1", Kind := "Deployment", Namespace := "game",
    Name := "lobby", SyncWave := 2 }

/-- A tick on the sample tree in which the first pod delete is refused. -/
def refusedTick : TickInput :=
  { ctxErr := none
    tree := .ok sampleTree
    app := .ok { Resources := [], Server := "https://cluster" }
    k8s := none
    delete := fun i => if i = 0 then some (GoError.leaf "pods is forbidden" false) else none }

/-- The events of a run of the poller, tick by tick. -/
def pollTrace (fuel : Nat) (newClient : Option GoError) (parent : ResourceStatus)
    (noGrace : Bool) (grace : Int) (ticks : List TickInput) : List (List Event) :=
  (waitPodsDeleted fuel newClient parent noGrace grace ticks).1

/-! ## A tree with a cycle -/

/-- A Pod whose only parent reference names the Pod itself. -/
def loopPod : ResourceNode :=
  { Group := "", Kind := "Pod", Namespace := "game", Name := "lobby-7d9-x2k",
    ParentRefs := [{ Group := "", Kind := "Pod", Namespace := "game", Name := "lobby-7d9-x2k" }] }

/-- A malformed tree: the sample Deployment and a Pod that is its own parent. -/
def loopTree : ApplicationTree :=
  { Nodes := [sampleDeployment, loopPod], OrphanedNodes := [] }

/-! ## Counting the cluster handles built -/

/-- An event is a call of `newK8sClient`. -/
def Event.isNewK8sClient : Event → Bool
  | .newK8sClient _ => true
  | _ => false

/-- The number of calls of `newK8sClient` among some events. -/
def clientCount (evs : List Event) : Nat := (evs.filter Event.isNewK8sClient).length

/-- All the events of a run of `ScaleDownBySyncWave`, task after task. -/
def runEvents (run : List (List (ResourceStatus × List Event)) × RunOutcome) : List Event :=
  (run.1.flatten.map Prod.snd).flatten

/-! ## A run with two workloads to force-delete -/

/-- A second workload, one wave below the sample workload. -/
def storeWorkload : ResourceStatus :=
  { Group := "apps", Version := "v1", Kind := "StatefulSet", Namespace := "game",
    Name := "store", SyncWave := 1 }

/-- The StatefulSet of the second workload. -/
def storeSet : ResourceNode :=
  { Group := "apps", Kind := "StatefulSet", Namespace := "game", Name := "store",
    ParentRefs := [] }

/-- A Pod owned by the StatefulSet. -/
def storePod : ResourceNode :=
  { Group := "", Kind := "Pod", Namespace := "game", Name := "store-0",
    ParentRefs := [{ Group := "apps", Kind := "StatefulSet", Namespace := "game",
                     Name := "store" }] }

/-- A tree in which both workloads still have a pod. -/
def pairTree : ApplicationTree :=
  { Nodes := [sampleDeployment, sampleReplicaSet, samplePod, storeSet, storePod],
    OrphanedNodes := [] }

/-- A tick that finds both workloads with a pod left; every call succeeds. -/
def busyTick : TickInput :=
  { ctxErr := none
    tree := .ok pairTree
    app := .ok { Resources := [], Server := "https://cluster" }
    k8s := none
    delete := fun _ => none }

/-- A tick that finds the tree empty. -/
def goneTick : TickInput :=
  { ctxErr := none
    tree := .ok { Nodes := [], OrphanedNodes := [] }
    app := .ok { Resources := [], Server := "https://cluster" }
    k8s := none
    delete := fun _ => none }

/-- A run on two workloads in two waves: each task patches, finds a pod left
at its first tick and the tree empty at its second. -/
def pairRun : RunInput :=
  { newClient := none
    get := .ok { Resources := [sampleWorkload, storeWorkload], Server := "https://cluster" }
    task := fun _ =>
      { patchClient := none, patchResource := none, waitClient := none,
        ticks := [busyTick, goneTick], finish := 0 } }

/-! ## A tree with a pod of a DaemonSet -/

/-- A Pod that names both the sample ReplicaSet and a DaemonSet among its
parent references: a descendant of the sample Deployment through the
ReplicaSet. -/
def daemonPod : ResourceNode :=
  { Group := "", Kind := "Pod", Namespace := "game", Name := "node-agent-5fq",
    ParentRefs := [{ Group := "apps", Kind := "ReplicaSet", Namespace := "game",
                     Name := "lobby-7d9" },
                   { Group := "apps", Kind := "DaemonSet", Namespace := "game",
                     Name := "node-agent" }] }

/-- The sample tree with the pod of the DaemonSet added. -/
def daemonTree : ApplicationTree :=
  { Nodes := [sampleDeployment, sampleReplicaSet, samplePod, daemonPod], OrphanedNodes := [] }

/-- A tree in which the only pod below the sample Deployment is the pod of
the DaemonSet. -/
def daemonOnlyTree : ApplicationTree :=
  { Nodes := [sampleDeployment, sampleReplicaSet, daemonPod], OrphanedNodes := [] }

/-- A tick that fetches the tree whose only pod is the pod of the DaemonSet. -/
def daemonOnlyTick : TickInput :=
  { ctxErr := none
    tree := .ok daemonOnlyTree
    app := .ok { Resources := [], Server := "https://cluster" }
    k8s := none
    delete := fun _ => none }

/-! ## A tick whose application fetch fails -/

/-- A tick on the sample tree, where the sample workload has a pod left, in
which `appIf.Get` fails. -/
def fetchFailsTick : TickInput :=
  { ctxErr := none
    tree := .ok sampleTree
    app := .error (GoError.leaf "rpc error: code = Unavailable" false)
    k8s := none
    delete := fun _ => none }

/-! ## A run whose first wave fails -/

/-- A run on the two sample workloads in which the patch of the workload of
the higher wave is refused, and nothing is given for the lower wave. -/
def boomRun : RunInput :=
  { newClient := none
    get := .ok { Resources := [storeWorkload, sampleWorkload], Server := "https://cluster" }
    task := fun w =>
      if w.Name = "lobby" then
        { patchClient := none
          patchResource := some (GoError.leaf "rpc error: code = PermissionDenied" false)
          waitClient := none, ticks := [], finish := 0 }
      else
        { patchClient := none, patchResource := none, waitClient := none,
          ticks := [], finish := 0 } }

/-! # Theorems -/

/-! ## Discovery: the filter and the sort -/

theorem filterLoop_eq (p : ResourceStatus → Bool) (xs acc : List ResourceStatus) :
    xs.foldl (fun acc res => if p res then acc ++ [res] else acc) acc = acc ++ xs.filter p := by
  induction xs generalizing acc with
  | nil => simp
  | cons x xs ih =>
    rw [List.foldl_cons, ih]
    by_cases hx : p x = true
    · simp [hx, List.filter_cons]
    · simp [hx, List.filter_cons]

theorem sinkLeft_perm {α : Type} (less : α → α → Bool) (x : α) (l : List α) :
    (sinkLeft less x l).Perm (x :: l) := by
  induction l with
  | nil => simp [sinkLeft]
  | cons y rest ih =>
    unfold sinkLeft
    split
    · exact ((List.Perm.cons y ih).trans (List.Perm.swap x y rest))
    · exact List.Perm.refl _

theorem sortLoop_perm {α : Type} (less : α → α → Bool) (xs done : List α) :
    (xs.foldl (fun done x => sinkLeft less x done) done).Perm (xs ++ done) := by
  induction xs generalizing done with
  | nil => simp
  | cons x xs ih =>
    rw [List.foldl_cons]
    refine (ih _).trans ?_
    refine (List.Perm.append_left xs (sinkLeft_perm less x done)).trans ?_
    exact List.perm_middle

theorem sortSlice_perm {α : Type} (less : α → α → Bool) (xs : List α) :
    (sortSlice less xs).Perm xs := by
  unfold sortSlice
  refine (List.reverse_perm _).trans ?_
  simpa using sortLoop_perm less xs []

theorem sinkLeft_ordered (x : ResourceStatus) (l : List ResourceStatus)
    (h : l.Pairwise (fun a b => a.SyncWave ≤ b.SyncWave)) :
    (sinkLeft waveLess x l).Pairwise (fun a b => a.SyncWave ≤ b.SyncWave) := by
  induction l with
  | nil => simp [sinkLeft]
  | cons y rest ih =>
    rw [List.pairwise_cons] at h
    unfold sinkLeft
    by_cases hxy : waveLess x y = true
    · rw [if_pos hxy, List.pairwise_cons]
      refine ⟨?_, ih h.2⟩
      intro z hz
      have hz2 : z ∈ x :: rest := (sinkLeft_perm waveLess x rest).mem_iff.mp hz
      rcases List.mem_cons.mp hz2 with rfl | hz3
      · have : z.SyncWave > y.SyncWave := by simpa [waveLess] using hxy
        omega
      · exact h.1 z hz3
    · rw [if_neg hxy, List.pairwise_cons]
      have hle : x.SyncWave ≤ y.SyncWave := by
        have : ¬ x.SyncWave > y.SyncWave := by simpa [waveLess] using hxy
        omega
      refine ⟨?_, List.pairwise_cons.mpr h⟩
      intro z hz
      rcases List.mem_cons.mp hz with rfl | hz3
      · exact hle
      · exact le_trans hle (h.1 z hz3)

theorem sortLoop_ordered (xs done : List ResourceStatus)
    (h : done.Pairwise (fun a b => a.SyncWave ≤ b.SyncWave)) :
    (xs.foldl (fun done x => sinkLeft waveLess x done) done).Pairwise
      (fun a b => a.SyncWave ≤ b.SyncWave) := by
  induction xs generalizing done with
  | nil => exact h
  | cons x xs ih => exact ih _ (sinkLeft_ordered x done h)

theorem sortSlice_ordered (xs : List ResourceStatus) :
    (sortSlice waveLess xs).Pairwise (fun a b => a.SyncWave ≥ b.SyncWave) := by
  unfold sortSlice
  rw [List.pairwise_reverse]
  exact sortLoop_ordered xs [] List.Pairwise.nil

/-- C1: for every application fetched successfully, `getAppWorkloads` returns
a list that is a permutation of the resources whose Kind is Deployment,
StatefulSet, GameDeployment or GameStatefulSet (no other resource, none of
those missing or repeated), ordered by SyncWave non-increasing. -/
theorem getAppWorkloads_sorted_perm (app : Application) :
    ∃ ws, getAppWorkloads none (.ok app) = .ok ws ∧
      ws.Perm (app.Resources.filter (fun r => decide (r.Kind ∈
        ["Deployment", "StatefulSet", "GameDeployment", "GameStatefulSet"]))) ∧
      ws.Pairwise (fun a b => a.SyncWave ≥ b.SyncWave) := by
  refine ⟨_, rfl, ?_, sortSlice_ordered _⟩
  refine (sortSlice_perm _ _).trans ?_
  rw [filterLoop_eq]
  simp only [List.nil_append]
  have hp : (fun r : ResourceStatus => canScaleWorkloads r.Kind) = (fun r => decide (r.Kind ∈
        ["Deployment", "StatefulSet", "GameDeployment", "GameStatefulSet"])) := by
    funext r
    simp [canScaleWorkloads, Bool.or_assoc]
  rw [hp]

/-! ## Wave grouping -/

theorem groupStep_emitted (st : GroupState) (w : ResourceStatus) :
    (groupStep st w).emitted = st.emitted ++ [w] := by
  unfold groupStep GroupState.emitted
  by_cases hw : w.SyncWave ≠ st.currentWave
  · rw [if_pos hw]
    by_cases hb : st.buf.length > 0
    · simp [hb]
    · have : st.buf = [] := List.eq_nil_of_length_eq_zero (by omega)
      simp [this]
  · rw [if_neg hw]
    simp

theorem groupLoop_emitted (ws : List ResourceStatus) (st : GroupState) :
    (ws.foldl groupStep st).emitted = st.emitted ++ ws := by
  induction ws generalizing st with
  | nil => simp
  | cons w ws ih => rw [List.foldl_cons, ih, groupStep_emitted]; simp

theorem closeGroups_flatten (st : GroupState) :
    (if st.buf.length > 0 then st.groups ++ [st.buf] else st.groups).flatten = st.emitted := by
  unfold GroupState.emitted
  by_cases hb : st.buf.length > 0
  · simp [hb]
  · have : st.buf = [] := List.eq_nil_of_length_eq_zero (by omega)
    simp [this]

/-- C2: for every workload list, the groups built by `ScaleDownBySyncWave`,
concatenated in group order, are exactly the list it was given: same
elements, same order, nothing repeated and nothing left out. -/
theorem groupWorkloads_flatten (workloads : List ResourceStatus) :
    (groupWorkloads workloads).flatten = workloads := by
  cases workloads with
  | nil => rfl
  | cons w0 rest =>
    unfold groupWorkloads
    simp only
    rw [closeGroups_flatten, groupLoop_emitted]
    simp [GroupState.emitted]

theorem groupStep_inv (st : GroupState) (w : ResourceStatus) (inv : GroupInv st)
    (hge : ∀ a ∈ st.emitted, a.SyncWave ≥ w.SyncWave) : GroupInv (groupStep st w) := by
  unfold groupStep
  by_cases hw : w.SyncWave ≠ st.currentWave
  · rw [if_pos hw]
    by_cases hb : st.buf.length > 0
    · have hne : st.buf ≠ [] := by
        intro h; rw [h] at hb; simp at hb
      obtain ⟨b0, hb0⟩ := List.exists_mem_of_ne_nil _ hne
      have hcur : st.currentWave > w.SyncWave := by
        have h1 := inv.bufWave b0 hb0
        have h2 := hge b0 (by simp [GroupState.emitted, hb0])
        omega
      simp only [hb, if_true]
      refine ⟨?_, ?_, ?_, ?_, ?_, ?_⟩
      · intro g hg
        rcases List.mem_append.mp hg with h | h
        · exact inv.nonempty g h
        · simp at h; rw [h]; exact hne
      · intro g hg
        rcases List.mem_append.mp hg with h | h
        · exact inv.oneWave g h
        · simp at h; rw [h]
          intro a ha b hb
          rw [inv.bufWave a ha, inv.bufWave b hb]
      · intro a ha
        simp at ha; rw [ha]
      · rw [List.pairwise_append]
        refine ⟨inv.above, by simp, ?_⟩
        intro g hg h hh a ha b hb
        simp at hh; subst hh
        have := inv.aboveCurrent g hg a ha
        rw [inv.bufWave b hb]
        exact this
      · intro g hg a ha
        rcases List.mem_append.mp hg with h | h
        · have := inv.aboveCurrent g h a ha
          show a.SyncWave > w.SyncWave
          omega
        · simp at h; subst h
          show a.SyncWave > w.SyncWave
          rw [inv.bufWave a ha]; exact hcur
      · intro h; simp at h
    · have hnil : st.buf = [] := List.eq_nil_of_length_eq_zero (by omega)
      have hg : st.groups = [] := inv.started hnil
      simp only [hb, if_false]
      refine ⟨?_, ?_, ?_, ?_, ?_, ?_⟩ <;> simp [hg]
  · rw [if_neg hw]
    have hw2 : w.SyncWave = st.currentWave := not_not.mp hw
    refine ⟨inv.nonempty, inv.oneWave, ?_, inv.above, inv.aboveCurrent, ?_⟩
    · intro a ha
      rcases List.mem_append.mp ha with h | h
      · exact inv.bufWave a h
      · simp at h; rw [h]; exact hw2
    · intro h; simp at h

theorem groupLoop_inv (ws : List ResourceStatus) (st : GroupState) (inv : GroupInv st)
    (hs : ws.Pairwise (fun a b => a.SyncWave ≥ b.SyncWave))
    (hge : ∀ a ∈ st.emitted, ∀ b ∈ ws, a.SyncWave ≥ b.SyncWave) :
    GroupInv (ws.foldl groupStep st) := by
  induction ws generalizing st with
  | nil => exact inv
  | cons w ws ih =>
    rw [List.pairwise_cons] at hs
    rw [List.foldl_cons]
    refine ih _ (groupStep_inv st w inv (fun a ha => hge a ha w (by simp))) hs.2 ?_
    intro a ha b hb
    rw [groupStep_emitted] at ha
    rcases List.mem_append.mp ha with h | h
    · exact hge a h b (by simp [hb])
    · simp at h; subst h; exact hs.1 b hb

theorem closeGroups_inv (st : GroupState) (inv : GroupInv st) :
    let gs := if st.buf.length > 0 then st.groups ++ [st.buf] else st.groups
    (∀ g ∈ gs, g ≠ []) ∧ (∀ g ∈ gs, OneWave g) ∧ gs.Pairwise WaveAbove := by
  intro gs
  by_cases hb : st.buf.length > 0
  · have hne : st.buf ≠ [] := by
      intro h; rw [h] at hb; simp at hb
    have hgs : gs = st.groups ++ [st.buf] := by simp [gs, hb]
    rw [hgs]
    refine ⟨?_, ?_, ?_⟩
    · intro g hg
      rcases List.mem_append.mp hg with h | h
      · exact inv.nonempty g h
      · simp at h; rw [h]; exact hne
    · intro g hg
      rcases List.mem_append.mp hg with h | h
      · exact inv.oneWave g h
      · simp at h; rw [h]
        intro a ha b hb
        rw [inv.bufWave a ha, inv.bufWave b hb]
    · rw [List.pairwise_append]
      refine ⟨inv.above, by simp, ?_⟩
      intro g hg h hh a ha b hb
      simp at hh; subst hh
      rw [inv.bufWave b hb]
      exact inv.aboveCurrent g hg a ha
  · have hgs : gs = st.groups := by simp [gs, hb]
    rw [hgs]
    exact ⟨inv.nonempty, inv.oneWave, inv.above⟩

/-- C3: on a workload list sorted by SyncWave non-increasing (what
`getAppWorkloads` returns), the groups built by `ScaleDownBySyncWave` are
all non-empty, the members of one group share one SyncWave, and each group
lies strictly above the group after it in SyncWave. -/
theorem groupWorkloads_waves (workloads : List ResourceStatus)
    (hs : workloads.Pairwise (fun a b => a.SyncWave ≥ b.SyncWave)) :
    (∀ g ∈ groupWorkloads workloads, g ≠ []) ∧
    (∀ g ∈ groupWorkloads workloads, ∀ a ∈ g, ∀ b ∈ g, a.SyncWave = b.SyncWave) ∧
    (groupWorkloads workloads).Chain'
      (fun g h => ∀ a ∈ g, ∀ b ∈ h, a.SyncWave > b.SyncWave) := by
  cases workloads with
  | nil => simp [groupWorkloads]
  | cons w0 rest =>
    have inv0 : GroupInv { groups := [], buf := [], currentWave := w0.SyncWave } := by
      refine ⟨?_, ?_, ?_, ?_, ?_, ?_⟩ <;> simp
    have inv := groupLoop_inv (w0 :: rest) _ inv0 hs (by simp [GroupState.emitted])
    have h := closeGroups_inv _ inv
    unfold groupWorkloads
    exact ⟨h.1, h.2.1, List.Pairwise.chain' h.2.2⟩

theorem groupWorkloads_waves_witness :
    [(⟨"apps", "v1", "Deployment", "game", "lobby", 2⟩ : ResourceStatus),
      ⟨"apps", "v1", "StatefulSet", "game", "match", 2⟩,
      ⟨"apps", "v1", "Deployment", "game", "store", 1⟩].Pairwise
        (fun a b => a.SyncWave ≥ b.SyncWave) ∧
    (groupWorkloads
      [⟨"apps", "v1", "Deployment", "game", "lobby", 2⟩,
        ⟨"apps", "v1", "StatefulSet", "game", "match", 2⟩,
        ⟨"apps", "v1", "Deployment", "game", "store", 1⟩]).Chain'
      (fun g h => ∀ a ∈ g, ∀ b ∈ h, a.SyncWave > b.SyncWave) :=
  ⟨by simp, (groupWorkloads_waves _ (by simp)).2.2⟩

/-! ## Replica patch -/

/-- C4: once the application client exists, `patchWorkloadReplicasZero`
returns success exactly when the `PatchResource` call succeeded or its error
text contains "not found as part"; any other error is returned unchanged. In
particular the "not found as part of application" answer for a workload
already deleted is a success. -/
theorem patchWorkloadReplicasZero_outcome (patchResource : Option GoError) :
    (patchWorkloadReplicasZero none patchResource = none ↔
      (patchResource = none ∨
        ∃ err, patchResource = some err ∧
          stringsContains err.Error "not found as part" = true)) ∧
    (∀ err, patchResource = some err →
      stringsContains err.Error "not found as part" = false →
      patchWorkloadReplicasZero none patchResource = some err) ∧
    (∀ nf, patchWorkloadReplicasZero none (some (GoError.leaf
      "rpc error: code = InvalidArgument desc = apps Deployment lobby not found as part of application game"
      nf)) = none) := by
  refine ⟨?_, ?_, ?_⟩
  · cases patchResource with
    | none => simp [patchWorkloadReplicasZero]
    | some err =>
      by_cases h : stringsContains err.Error "not found as part" = true
      · simp [patchWorkloadReplicasZero, h]
      · simp [patchWorkloadReplicasZero, h]
  · intro err he hc
    subst he
    simp [patchWorkloadReplicasZero, hc]
  · intro nf
    have h : stringsContains
      "rpc error: code = InvalidArgument desc = apps Deployment lobby not found as part of application game"
      "not found as part" = true := by decide
    simp [patchWorkloadReplicasZero, GoError.Error, h]

theorem patchWorkloadReplicasZero_outcome_witness :
    stringsContains (GoError.leaf "connection refused" false).Error "not found as part" = false ∧
    patchWorkloadReplicasZero none (some (GoError.leaf "connection refused" false)) =
      some (GoError.leaf "connection refused" false) :=
  ⟨by decide,
    (patchWorkloadReplicasZero_outcome (some (GoError.leaf "connection refused" false))).2.1
      _ rfl (by decide)⟩

/-! ## Descendant test -/

theorem findNode_some {tree : ApplicationTree} {group kind ns name : String} {m : ResourceNode}
    (h : tree.FindNode group kind ns name = some m) :
    m ∈ tree.Nodes ++ tree.OrphanedNodes ∧
      m.Group = group ∧ m.Kind = kind ∧ m.Namespace = ns ∧ m.Name = name := by
  unfold ApplicationTree.FindNode at h
  refine ⟨List.mem_of_find?_eq_some h, ?_⟩
  have hp := List.find?_some h
  simpa [and_assoc] using hp

theorem findNode_none {tree : ApplicationTree} {group kind ns name : String} :
    tree.FindNode group kind ns name = none ↔
      ∀ n ∈ tree.Nodes ++ tree.OrphanedNodes,
        ¬ (n.Group = group ∧ n.Kind = kind ∧ n.Namespace = ns ∧ n.Name = name) := by
  unfold ApplicationTree.FindNode
  rw [List.find?_eq_none]
  constructor
  · intro h n hn hcontra
    exact h n hn (by simp [hcontra.1, hcontra.2.1, hcontra.2.2.1, hcontra.2.2.2])
  · intro h n hn hcontra
    exact h n hn (by simpa [and_assoc] using hcontra)

theorem parentOf_mem {tree : ApplicationTree} {m n : ResourceNode} (h : ParentOf tree m n) :
    m ∈ tree.Nodes ++ tree.OrphanedNodes := by
  obtain ⟨pr, _, hf⟩ := h
  exact (findNode_some hf).1

/-- On an acyclic tree every node is accessible for the parent relation: the
nodes a reference can resolve to are finitely many. -/
theorem acc_of_acyclic {tree : ApplicationTree} (h : Acyclic tree) (n : ResourceNode) :
    Acc (ParentOf tree) n := by
  let S := {x : ResourceNode // x ∈ tree.Nodes ++ tree.OrphanedNodes}
  let r : S → S → Prop := fun a b => Relation.TransGen (ParentOf tree) a.1 b.1
  haveI : Finite S := (List.finite_toSet (tree.Nodes ++ tree.OrphanedNodes)).to_subtype
  haveI : IsTrans S r := ⟨fun _ _ _ hab hbc => Relation.TransGen.trans hab hbc⟩
  haveI : IsIrrefl S r := ⟨fun a haa => h a.1 haa⟩
  have wf : WellFounded r := Finite.wellFounded_of_trans_of_irrefl r
  have key : ∀ x : S, Acc (ParentOf tree) x.1 := by
    intro x
    induction x using wf.induction with
    | _ x ih =>
      refine Acc.intro _ (fun m hm => ?_)
      exact ih ⟨m, parentOf_mem hm⟩ (Relation.TransGen.single hm)
  exact Acc.intro _ (fun m hm => key ⟨m, parentOf_mem hm⟩)

/-- A tree whose resolved parents always have a smaller rank is acyclic. -/
theorem acyclic_of_rank (tree : ApplicationTree) (rank : ResourceNode → Nat)
    (h : ∀ n ∈ tree.Nodes ++ tree.OrphanedNodes, ∀ pr ∈ n.ParentRefs,
      ∀ m ∈ tree.FindNode pr.Group pr.Kind pr.Namespace pr.Name, rank m < rank n) :
    Acyclic tree := by
  have step : ∀ a b, ParentOf tree a b → b ∈ tree.Nodes ++ tree.OrphanedNodes →
      rank a < rank b := by
    intro a b hab hb
    obtain ⟨pr, hpr, hf⟩ := hab
    exact h b hb pr hpr a hf
  have key : ∀ a b, Relation.TransGen (ParentOf tree) a b →
      b ∈ tree.Nodes ++ tree.OrphanedNodes → rank a < rank b := by
    intro a b hab
    induction hab with
    | single hs => exact step _ _ hs
    | tail _ hcb ih =>
      intro hb
      exact lt_trans (ih (parentOf_mem hcb)) (step _ _ hcb hb)
  intro n hn
  obtain ⟨b, hnb, _⟩ := Relation.TransGen.head'_iff.mp hn
  exact lt_irrefl _ (key n n hn (parentOf_mem hnb))

theorem isChildNode_nil (fuel : Nat) (tree : ApplicationTree) (parent : Option ResourceNode) :
    isChildNode (fuel + 1) tree none parent = some false := by
  simp [isChildNode]

theorem ownerChain_iff (tree : ApplicationTree) (target n : ResourceNode) :
    OwnerChain tree target n ↔
      ∃ pr ∈ n.ParentRefs, RefIs pr target ∨
        ∃ pn, tree.FindNode pr.Group pr.Kind pr.Namespace pr.Name = some pn ∧
          (SameIdentity pn target ∨ OwnerChain tree target pn) := by
  constructor
  · intro h
    cases h with
    | direct hpr hr => exact ⟨_, hpr, Or.inl hr⟩
    | step hpr hf hc => exact ⟨_, hpr, Or.inr ⟨_, hf, Or.inr hc⟩⟩
  · rintro ⟨pr, hpr, hr | ⟨pn, hf, hs | hc⟩⟩
    · exact OwnerChain.direct hpr hr
    · obtain ⟨_, hg, hk, hns, hname⟩ := findNode_some hf
      refine OwnerChain.direct hpr ?_
      unfold SameIdentity at hs
      unfold RefIs
      rw [← hg, ← hk, ← hns, ← hname]
      exact hs
    · exact OwnerChain.step hpr hf hc

/-- The loop over the parent references answers, given enough fuel, when every
reference resolves to a node on which the test answers. -/
theorem parentRefsLoop_spec (tree : ApplicationTree) (target : ResourceNode)
    (refs : List ResourceRef)
    (ih : ∀ pr ∈ refs, ∀ m, tree.FindNode pr.Group pr.Kind pr.Namespace pr.Name = some m →
      ∃ F, ∀ fuel, F ≤ fuel → ∃ b, isChildNode fuel tree (some m) (some target) = some b ∧
        (b = true ↔ SameIdentity m target ∨ OwnerChain tree target m)) :
    ∃ F, ∀ fuel, F ≤ fuel → ∃ b,
      parentRefsLoop tree target (fun pn => isChildNode fuel tree pn (some target)) refs
        = some b ∧
      (b = true ↔ ∃ pr ∈ refs, RefIs pr target ∨
        ∃ pn, tree.FindNode pr.Group pr.Kind pr.Namespace pr.Name = some pn ∧
          (SameIdentity pn target ∨ OwnerChain tree target pn)) := by
  induction refs with
  | nil => exact ⟨0, fun fuel _ => ⟨false, by simp [parentRefsLoop]⟩⟩
  | cons pr rest ihl =>
    obtain ⟨Fr, hFr⟩ := ihl (fun p hp => ih p (List.mem_cons_of_mem _ hp))
    by_cases hr : RefIs pr target
    · refine ⟨0, fun fuel _ => ⟨true, ?_, ?_⟩⟩
      · unfold parentRefsLoop
        rw [if_pos (show pr.Name = target.Name ∧ pr.Kind = target.Kind ∧
          pr.Namespace = target.Namespace ∧ pr.Group = target.Group from hr)]
      · simp only [true_iff]
        exact ⟨pr, List.mem_cons_self _ _, Or.inl hr⟩
    · cases hf : tree.FindNode pr.Group pr.Kind pr.Namespace pr.Name with
      | none =>
        refine ⟨max 1 Fr, fun fuel hfuel => ?_⟩
        obtain ⟨b, hb, hiff⟩ := hFr fuel (le_trans (le_max_right _ _) hfuel)
        obtain ⟨k, rfl⟩ : ∃ k, fuel = k + 1 :=
          ⟨fuel - 1, by have := le_trans (le_max_left 1 Fr) hfuel; omega⟩
        refine ⟨b, ?_, ?_⟩
        · unfold parentRefsLoop
          rw [if_neg (show ¬ (pr.Name = target.Name ∧ pr.Kind = target.Kind ∧
            pr.Namespace = target.Namespace ∧ pr.Group = target.Group) from hr)]
          simp only [hf, isChildNode_nil]
          exact hb
        · rw [hiff]
          constructor
          · rintro ⟨p, hp, h⟩
            exact ⟨p, List.mem_cons_of_mem _ hp, h⟩
          · rintro ⟨p, hp, h⟩
            rcases List.mem_cons.mp hp with rfl | hp2
            · rcases h with h | ⟨pn, hpn, _⟩
              · exact absurd h hr
              · rw [hf] at hpn; cases hpn
            · exact ⟨p, hp2, h⟩
      | some m =>
        obtain ⟨Fm, hFm⟩ := ih pr (List.mem_cons_self _ _) m hf
        refine ⟨max Fm Fr, fun fuel hfuel => ?_⟩
        obtain ⟨b, hb, hiff⟩ := hFr fuel (le_trans (le_max_right _ _) hfuel)
        obtain ⟨bm, hbm, hiffm⟩ := hFm fuel (le_trans (le_max_left _ _) hfuel)
        cases bm with
        | true =>
          refine ⟨true, ?_, ?_⟩
          · unfold parentRefsLoop
            rw [if_neg (show ¬ (pr.Name = target.Name ∧ pr.Kind = target.Kind ∧
            pr.Namespace = target.Namespace ∧ pr.Group = target.Group) from hr)]
            simp only [hf, hbm]
          · simp only [true_iff]
            exact ⟨pr, List.mem_cons_self _ _, Or.inr ⟨m, hf, hiffm.mp rfl⟩⟩
        | false =>
          refine ⟨b, ?_, ?_⟩
          · unfold parentRefsLoop
            rw [if_neg (show ¬ (pr.Name = target.Name ∧ pr.Kind = target.Kind ∧
            pr.Namespace = target.Namespace ∧ pr.Group = target.Group) from hr)]
            simp only [hf, hbm]
            exact hb
          · rw [hiff]
            constructor
            · rintro ⟨p, hp, h⟩
              exact ⟨p, List.mem_cons_of_mem _ hp, h⟩
            · rintro ⟨p, hp, h⟩
              rcases List.mem_cons.mp hp with rfl | hp2
              · rcases h with h | ⟨pn, hpn, hd⟩
                · exact absurd h hr
                · rw [hf] at hpn
                  cases hpn
                  have := hiffm.mpr hd
                  cases this
              · exact ⟨p, hp2, h⟩

/-- On an accessible node the descendant test answers, given enough fuel, and
its answer is the description in words. -/
theorem isChildNode_spec (tree : ApplicationTree) (target node : ResourceNode)
    (hacc : Acc (ParentOf tree) node) :
    ∃ F, ∀ fuel, F ≤ fuel → ∃ b, isChildNode fuel tree (some node) (some target) = some b ∧
      (b = true ↔ SameIdentity node target ∨ OwnerChain tree target node) := by
  induction hacc with
  | intro n _ ih =>
    obtain ⟨F, hF⟩ := parentRefsLoop_spec tree target n.ParentRefs
      (fun pr hpr m hm => ih m ⟨pr, hpr, hm⟩)
    refine ⟨F + 1, fun fuel hfuel => ?_⟩
    obtain ⟨k, rfl⟩ : ∃ k, fuel = k + 1 := ⟨fuel - 1, by omega⟩
    by_cases hs : SameIdentity n target
    · refine ⟨true, ?_, by simp [hs]⟩
      unfold isChildNode
      simp only
      rw [if_pos (show n.Name = target.Name ∧ n.Kind = target.Kind ∧
          n.Namespace = target.Namespace ∧ n.Group = target.Group from hs)]
    · obtain ⟨b, hb, hiff⟩ := hF k (by omega)
      refine ⟨b, ?_, ?_⟩
      · unfold isChildNode
        simp only
        rw [if_neg (show ¬ (n.Name = target.Name ∧ n.Kind = target.Kind ∧
          n.Namespace = target.Namespace ∧ n.Group = target.Group) from hs)]
        exact hb
      · rw [hiff, ownerChain_iff tree target n]
        simp [hs]

/-- C5: on a tree whose parent references are acyclic, for every node and
target, `isChildNode` answers (with enough nested calls allowed), and it
answers true exactly when the node has the identity of the target or a chain
of parent references, each one before the last resolving to a node of the
tree, leads from the node to a reference with the identity of the target. In
particular a node whose parent reference resolves to a node that refers to
the target (Pod, ReplicaSet, Deployment) is a descendant. -/
theorem isChildNode_descendant (tree : ApplicationTree) (h : Acyclic tree)
    (node target : ResourceNode) :
    ∃ F, ∀ fuel, F ≤ fuel →
      (isChildNode fuel tree (some node) (some target)).isSome = true ∧
      (isChildNode fuel tree (some node) (some target) = some true ↔
        SameIdentity node target ∨ OwnerChain tree target node) ∧
      (∀ pr owner pr2, pr ∈ node.ParentRefs →
        tree.FindNode pr.Group pr.Kind pr.Namespace pr.Name = some owner →
        pr2 ∈ owner.ParentRefs → RefIs pr2 target →
        isChildNode fuel tree (some node) (some target) = some true) := by
  obtain ⟨F, hF⟩ := isChildNode_spec tree target node (acc_of_acyclic h node)
  refine ⟨F, fun fuel hfuel => ?_⟩
  obtain ⟨b, hb, hiff⟩ := hF fuel hfuel
  have hmain : isChildNode fuel tree (some node) (some target) = some true ↔
      SameIdentity node target ∨ OwnerChain tree target node := by
    rw [hb, ← hiff]
    simp
  refine ⟨by rw [hb]; rfl, hmain, ?_⟩
  intro pr owner pr2 hpr hfind hpr2 href
  exact hmain.mpr (Or.inr (OwnerChain.step hpr hfind (OwnerChain.direct hpr2 href)))

theorem isChildNode_descendant_witness :
    Acyclic sampleTree ∧
    ∃ F, ∀ fuel, F ≤ fuel →
      (isChildNode fuel sampleTree (some samplePod) (some sampleDeployment)).isSome = true ∧
      (isChildNode fuel sampleTree (some samplePod) (some sampleDeployment) = some true ↔
        SameIdentity samplePod sampleDeployment ∨
          OwnerChain sampleTree sampleDeployment samplePod) ∧
      (∀ pr owner pr2, pr ∈ samplePod.ParentRefs →
        sampleTree.FindNode pr.Group pr.Kind pr.Namespace pr.Name = some owner →
        pr2 ∈ owner.ParentRefs → RefIs pr2 sampleDeployment →
        isChildNode fuel sampleTree (some samplePod) (some sampleDeployment) = some true) :=
  ⟨acyclic_of_rank sampleTree sampleRank (by decide),
    isChildNode_descendant sampleTree (acyclic_of_rank sampleTree sampleRank (by decide))
      samplePod sampleDeployment⟩

/-! ## The pod count of a tick -/

theorem collectPods_spec (fuel : Nat) (tree : ApplicationTree) (parentNode : ResourceNode)
    (nodes : List ResourceNode) (acc : Nat × List ResourceNode)
    (hans : ∀ n ∈ nodes, n.Kind = "Pod" →
      (isChildNode fuel tree (some n) (some parentNode)).isSome = true) :
    collectPods fuel tree parentNode nodes acc =
      some (acc.1 + (nodes.filter (countedPod fuel tree parentNode)).length,
        acc.2 ++ nodes.filter (countedPod fuel tree parentNode)) := by
  induction nodes generalizing acc with
  | nil => simp [collectPods]
  | cons n rest ih =>
    have ihr := fun a => ih a (fun m hm => hans m (List.mem_cons_of_mem _ hm))
    by_cases hk : n.Kind = "Pod"
    · have hn := hans n (List.mem_cons_self _ _) hk
      cases hc : isChildNode fuel tree (some n) (some parentNode) with
      | none => rw [hc] at hn; cases hn
      | some b =>
        cases b with
        | false =>
          have hcp : countedPod fuel tree parentNode n = false := by
            simp [countedPod, hc]
          have hgo : collectPods fuel tree parentNode (n :: rest) acc =
              collectPods fuel tree parentNode rest acc := by
            rw [collectPods, if_neg (not_not.mpr hk)]
            simp only [hc]
          rw [hgo, ihr, List.filter_cons, hcp]
          simp
        | true =>
          by_cases hd : (n.ParentRefs.any (fun p => decide (p.Kind = "DaemonSet"))) = true
          · have hcp : countedPod fuel tree parentNode n = false := by
              simp only [countedPod, hd]
              simp
            have hgo : collectPods fuel tree parentNode (n :: rest) acc =
                collectPods fuel tree parentNode rest acc := by
              rw [collectPods, if_neg (not_not.mpr hk)]
              simp only [hc, hd]
              rfl
            rw [hgo, ihr, List.filter_cons, hcp]
            simp
          · have hd2 : (n.ParentRefs.any (fun p => decide (p.Kind = "DaemonSet"))) = false := by
              simpa using hd
            have hcp : countedPod fuel tree parentNode n = true := by
              simp only [countedPod, hk, hc, hd2]
              simp
            have hgo : collectPods fuel tree parentNode (n :: rest) acc =
                collectPods fuel tree parentNode rest (acc.1 + 1, acc.2 ++ [n]) := by
              rw [collectPods, if_neg (not_not.mpr hk)]
              simp only [hc, hd2]
              rfl
            rw [hgo, ihr, List.filter_cons, hcp]
            simp
            omega
    · have hcp : countedPod fuel tree parentNode n = false := by
        simp [countedPod, hk]
      have hgo : collectPods fuel tree parentNode (n :: rest) acc =
          collectPods fuel tree parentNode rest acc := by
        rw [collectPods, if_pos hk]
      rw [hgo, ihr, List.filter_cons, hcp]
      simp

/-- The pod loop gives no count when the descendant test gives no answer on
some Pod of the list. -/
theorem collectPods_none (fuel : Nat) (tree : ApplicationTree) (parentNode : ResourceNode)
    (nodes : List ResourceNode) (acc : Nat × List ResourceNode)
    (h : ∃ n ∈ nodes, n.Kind = "Pod" ∧
      isChildNode fuel tree (some n) (some parentNode) = none) :
    collectPods fuel tree parentNode nodes acc = none := by
  induction nodes generalizing acc with
  | nil => obtain ⟨n, hn, _⟩ := h; cases hn
  | cons m rest ih =>
    obtain ⟨n, hn, hk, hnone⟩ := h
    rw [collectPods]
    by_cases hm : m.Kind = "Pod"
    · rw [if_neg (not_not.mpr hm)]
      cases hc : isChildNode fuel tree (some m) (some parentNode) with
      | none => rfl
      | some b =>
        have hrest : ∃ n ∈ rest, n.Kind = "Pod" ∧
            isChildNode fuel tree (some n) (some parentNode) = none := by
          rcases List.mem_cons.mp hn with rfl | hn2
          · rw [hc] at hnone; cases hnone
          · exact ⟨n, hn2, hk, hnone⟩
        cases b with
        | false => exact ih _ hrest
        | true =>
          simp only
          split
          · exact ih _ hrest
          · exact ih _ hrest
    · rw [if_pos hm]
      apply ih
      rcases List.mem_cons.mp hn with rfl | hn2
      · exact absurd hk hm
      · exact ⟨n, hn2, hk, hnone⟩

theorem isChildNode_answers (tree : ApplicationTree) (h : Acyclic tree)
    (parentNode : ResourceNode) (nodes : List ResourceNode) :
    ∃ F, ∀ fuel, F ≤ fuel →
      ∀ n ∈ nodes, (isChildNode fuel tree (some n) (some parentNode)).isSome = true := by
  induction nodes with
  | nil => exact ⟨0, fun _ _ n hn => by cases hn⟩
  | cons m rest ih =>
    obtain ⟨Fr, hFr⟩ := ih
    obtain ⟨Fm, hFm⟩ := isChildNode_spec tree parentNode m (acc_of_acyclic h m)
    refine ⟨max Fm Fr, fun fuel hfuel n hn => ?_⟩
    rcases List.mem_cons.mp hn with rfl | hn2
    · obtain ⟨b, hb, _⟩ := hFm fuel (le_trans (le_max_left _ _) hfuel)
      rw [hb]; rfl
    · exact hFr fuel (le_trans (le_max_right _ _) hfuel) n hn2

theorem forceDeleteLoop_events (delete : Nat → Option GoError) (grace : Int)
    (pods : List ResourceNode) (i : Nat) :
    ∀ e ∈ (forceDeleteLoop delete grace i pods).1,
      ∃ p ∈ pods, e = Event.deletePod p.Namespace p.Name grace := by
  induction pods generalizing i with
  | nil => intro e he; simp [forceDeleteLoop] at he
  | cons p rest ih =>
    intro e he
    unfold forceDeleteLoop at he
    cases hd : delete i with
    | none =>
      rw [hd] at he
      rcases List.mem_cons.mp he with h | h
      · exact ⟨p, List.mem_cons_self _ _, h⟩
      · obtain ⟨q, hq, hqe⟩ := ih (i + 1) e h
        exact ⟨q, List.mem_cons_of_mem _ hq, hqe⟩
    | some delErr =>
      rw [hd] at he
      by_cases hnf : delErr.IsNotFound = true
      · simp only [hnf, Bool.not_true, Bool.false_eq_true, if_false] at he
        rcases List.mem_cons.mp he with h | h
        · exact ⟨p, List.mem_cons_self _ _, h⟩
        · obtain ⟨q, hq, hqe⟩ := ih (i + 1) e h
          exact ⟨q, List.mem_cons_of_mem _ hq, hqe⟩
      · have hnf2 : delErr.IsNotFound = false := by simpa using hnf
        simp only [hnf2, Bool.not_false, if_true] at he
        exact ⟨p, List.mem_cons_self _ _, by simpa using he⟩

theorem forceDelete_events (grace : Int) (st : PollState) (inp : TickInput)
    (pods : List ResourceNode) :
    ∀ e ∈ (forceDelete grace st inp pods).1,
      e = Event.getApp ∨ (∃ server, e = Event.newK8sClient server) ∨
        e = Event.forceDeleting pods.length grace ∨
        ∃ p ∈ pods, e = Event.deletePod p.Namespace p.Name grace := by
  intro e he
  unfold forceDelete at he
  cases happ : inp.app with
  | error err =>
    rw [happ] at he
    exact Or.inl (by simpa using he)
  | ok app =>
    rw [happ] at he
    simp only at he
    have hloop := forceDeleteLoop_events inp.delete grace pods 0
    by_cases hh : st.haveK8sCli = true
    · simp only [hh, if_true] at he
      cases hr : (forceDeleteLoop inp.delete grace 0 pods).2 with
      | none =>
        rw [hr] at he
        simp only [List.cons_append, List.nil_append, List.singleton_append, List.mem_cons,
          List.mem_append, List.mem_singleton, List.not_mem_nil, false_or, or_false] at he
        rcases he with h | h | h
        · exact Or.inl h
        · exact Or.inr (Or.inr (Or.inl h))
        · exact Or.inr (Or.inr (Or.inr (hloop e h)))
      | some err =>
        rw [hr] at he
        simp only [List.cons_append, List.nil_append, List.singleton_append, List.mem_cons,
          List.mem_append, List.mem_singleton, List.not_mem_nil, false_or, or_false] at he
        rcases he with h | h | h
        · exact Or.inl h
        · exact Or.inr (Or.inr (Or.inl h))
        · exact Or.inr (Or.inr (Or.inr (hloop e h)))
    · have hh2 : st.haveK8sCli = false := by simpa using hh
      simp only [hh2, Bool.false_eq_true, if_false] at he
      cases hk : inp.k8s with
      | some err =>
        rw [hk] at he
        simp only [List.mem_cons, List.mem_singleton, List.not_mem_nil, or_false] at he
        rcases he with h | h
        · exact Or.inl h
        · exact Or.inr (Or.inl ⟨_, h⟩)
      | none =>
        rw [hk] at he
        cases hr : (forceDeleteLoop inp.delete grace 0 pods).2 with
        | none =>
          rw [hr] at he
          simp only [List.cons_append, List.nil_append, List.singleton_append, List.mem_cons,
          List.mem_append, List.mem_singleton, List.not_mem_nil, false_or, or_false] at he
          rcases he with h | h | h | h
          · exact Or.inl h
          · exact Or.inr (Or.inl ⟨_, h⟩)
          · exact Or.inr (Or.inr (Or.inl h))
          · exact Or.inr (Or.inr (Or.inr (hloop e h)))
        | some err =>
          rw [hr] at he
          simp only [List.cons_append, List.nil_append, List.singleton_append, List.mem_cons,
          List.mem_append, List.mem_singleton, List.not_mem_nil, false_or, or_false] at he
          rcases he with h | h | h | h
          · exact Or.inl h
          · exact Or.inr (Or.inl ⟨_, h⟩)
          · exact Or.inr (Or.inr (Or.inl h))
          · exact Or.inr (Or.inr (Or.inr (hloop e h)))

/-- A tick that fetched the tree, found the target and counted the pods. -/
theorem tick_counted (fuel : Nat) (parent : ResourceStatus) (noGrace : Bool) (grace : Int)
    (st : PollState) (inp : TickInput) (tree : ApplicationTree) (parentNode : ResourceNode)
    (pods : Nat) (podNodes : List ResourceNode)
    (hctx : inp.ctxErr = none) (htree : inp.tree = .ok tree)
    (hfind : tree.FindNode parent.Group parent.Kind parent.Namespace parent.Name
      = some parentNode)
    (hcount : collectPods fuel tree parentNode tree.Nodes (0, []) = some (pods, podNodes)) :
    tick fuel parent noGrace grace st inp =
      if pods = 0 then ([Event.resourceTree, Event.allDeleted], .done none)
      else if (noGrace && st.firstLoop) = true then
        (Event.resourceTree :: Event.remaining pods :: (forceDelete grace st inp podNodes).1,
          (forceDelete grace st inp podNodes).2)
      else ([Event.resourceTree, Event.remaining pods], .next st) := by
  unfold tick
  simp only [hctx, htree, hfind, hcount]

theorem countedPod_iff (fuel : Nat) (tree : ApplicationTree) (parentNode n : ResourceNode) :
    countedPod fuel tree parentNode n = true ↔
      n.Kind = "Pod" ∧ isChildNode fuel tree (some n) (some parentNode) = some true ∧
        ∀ pr ∈ n.ParentRefs, pr.Kind ≠ "DaemonSet" := by
  simp [countedPod]

theorem forceDelete_result (grace : Int) (st : PollState) (inp : TickInput)
    (pods : List ResourceNode) :
    (∃ err, (forceDelete grace st inp pods).2 = .done (some err)) ∨
      ∃ st2, (forceDelete grace st inp pods).2 = .next st2 := by
  unfold forceDelete
  cases inp.app with
  | error err => exact Or.inl ⟨err, rfl⟩
  | ok app =>
    simp only
    split
    · exact Or.inl ⟨_, rfl⟩
    · split
      · exact Or.inl ⟨_, rfl⟩
      · exact Or.inr ⟨_, rfl⟩

/-- C6: in one tick, for every tree, the pod loop returns a count exactly
when the descendant test answers on every Pod of `tree.Nodes` (as it does on
every acyclic tree, with enough nested calls allowed), and the count is then
the number of nodes of `tree.Nodes` that have Kind "Pod", are descendants of
the target by `isChildNode` and have no parent reference of Kind "DaemonSet",
together with exactly those nodes. A pod with a DaemonSet among its parent
references is never among them, whatever the descendant test says of it. The
tick reports that count, returns success (drained) exactly when the count is
zero, so such a pod never keeps the poller waiting, and every pod delete call
of the tick is for one of the nodes counted. When the descendant test gives
no answer on some Pod, the tick gives no count and does not return. -/
theorem tick_pod_count (fuel : Nat) (tree : ApplicationTree) (parentNode : ResourceNode) :
    ((∀ n ∈ tree.Nodes, n.Kind = "Pod" →
        (isChildNode fuel tree (some n) (some parentNode)).isSome = true) →
      collectPods fuel tree parentNode tree.Nodes (0, []) =
        some ((tree.Nodes.filter (countedPod fuel tree parentNode)).length,
          tree.Nodes.filter (countedPod fuel tree parentNode))) ∧
    ((∃ n ∈ tree.Nodes, n.Kind = "Pod" ∧
        isChildNode fuel tree (some n) (some parentNode) = none) →
      collectPods fuel tree parentNode tree.Nodes (0, []) = none) ∧
    (∀ n, countedPod fuel tree parentNode n = true ↔
      n.Kind = "Pod" ∧ isChildNode fuel tree (some n) (some parentNode) = some true ∧
        ∀ pr ∈ n.ParentRefs, pr.Kind ≠ "DaemonSet") ∧
    (∀ n, (∃ pr ∈ n.ParentRefs, pr.Kind = "DaemonSet") →
      n ∉ tree.Nodes.filter (countedPod fuel tree parentNode)) ∧
    (∀ (parent : ResourceStatus) (noGrace : Bool) (grace : Int) (st : PollState)
      (inp : TickInput), inp.ctxErr = none → inp.tree = .ok tree →
      tree.FindNode parent.Group parent.Kind parent.Namespace parent.Name = some parentNode →
      (∀ n ∈ tree.Nodes, n.Kind = "Pod" →
        (isChildNode fuel tree (some n) (some parentNode)).isSome = true) →
      ((tick fuel parent noGrace grace st inp).2 = .done none ↔
        tree.Nodes.filter (countedPod fuel tree parentNode) = []) ∧
      (tick fuel parent noGrace grace st inp).2 ≠ .stuck ∧
      (tree.Nodes.filter (countedPod fuel tree parentNode) ≠ [] →
        Event.remaining (tree.Nodes.filter (countedPod fuel tree parentNode)).length ∈
          (tick fuel parent noGrace grace st inp).1) ∧
      ∀ e ∈ (tick fuel parent noGrace grace st inp).1,
        (∀ k, e = Event.remaining k →
          k = (tree.Nodes.filter (countedPod fuel tree parentNode)).length) ∧
        (∀ ns name g, e = Event.deletePod ns name g →
          ∃ n ∈ tree.Nodes, countedPod fuel tree parentNode n = true ∧
            n.Namespace = ns ∧ n.Name = name)) ∧
    (∀ (parent : ResourceStatus) (noGrace : Bool) (grace : Int) (st : PollState)
      (inp : TickInput), inp.ctxErr = none → inp.tree = .ok tree →
      tree.FindNode parent.Group parent.Kind parent.Namespace parent.Name = some parentNode →
      (∃ n ∈ tree.Nodes, n.Kind = "Pod" ∧
        isChildNode fuel tree (some n) (some parentNode) = none) →
      tick fuel parent noGrace grace st inp = ([Event.resourceTree], .stuck)) ∧
    (Acyclic tree → ∃ F, ∀ fuel2, F ≤ fuel2 →
      collectPods fuel2 tree parentNode tree.Nodes (0, []) =
        some ((tree.Nodes.filter (countedPod fuel2 tree parentNode)).length,
          tree.Nodes.filter (countedPod fuel2 tree parentNode))) := by
  have hspec : ∀ f, (∀ n ∈ tree.Nodes, n.Kind = "Pod" →
        (isChildNode f tree (some n) (some parentNode)).isSome = true) →
      collectPods f tree parentNode tree.Nodes (0, []) =
        some ((tree.Nodes.filter (countedPod f tree parentNode)).length,
          tree.Nodes.filter (countedPod f tree parentNode)) := by
    intro f hans
    have h := collectPods_spec f tree parentNode tree.Nodes (0, []) hans
    simpa only [Nat.zero_add, List.nil_append] using h
  refine ⟨hspec fuel, collectPods_none fuel tree parentNode tree.Nodes (0, []),
    countedPod_iff fuel tree parentNode, ?_, ?_, ?_, ?_⟩
  · rintro n ⟨pr, hpr, hds⟩ hmem
    have hc := (List.mem_filter.mp hmem).2
    exact ((countedPod_iff fuel tree parentNode n).mp hc).2.2 pr hpr hds
  · intro parent noGrace grace st inp hctx htree hfind hans
    have hcount := hspec fuel hans
    have ht := tick_counted fuel parent noGrace grace st inp tree parentNode _ _
      hctx htree hfind hcount
    by_cases hz : (tree.Nodes.filter (countedPod fuel tree parentNode)).length = 0
    · have hnil : tree.Nodes.filter (countedPod fuel tree parentNode) = [] :=
        List.eq_nil_of_length_eq_zero hz
      rw [if_pos hz] at ht
      rw [ht]
      refine ⟨⟨fun _ => hnil, fun _ => rfl⟩, fun h => (by cases h),
        fun h => absurd hnil h, ?_⟩
      intro e he
      simp only [List.mem_cons, List.mem_singleton, List.not_mem_nil, or_false] at he
      rcases he with rfl | rfl
      · exact ⟨fun k hk => (by cases hk), fun ns name g hk => (by cases hk)⟩
      · exact ⟨fun k hk => (by cases hk), fun ns name g hk => (by cases hk)⟩
    · have hne : tree.Nodes.filter (countedPod fuel tree parentNode) ≠ [] := by
        intro h; rw [h] at hz; exact hz rfl
      rw [if_neg hz] at ht
      by_cases hf : (noGrace && st.firstLoop) = true
      · rw [if_pos hf] at ht
        rw [ht]
        refine ⟨?_, ?_, fun _ => by simp, ?_⟩
        · constructor
          · intro h
            rcases forceDelete_result grace st inp
              (tree.Nodes.filter (countedPod fuel tree parentNode)) with ⟨err, he⟩ | ⟨st2, he⟩
            · simp only at h; rw [he] at h; cases h
            · simp only at h; rw [he] at h; cases h
          · intro h; exact absurd h hne
        · intro h
          rcases forceDelete_result grace st inp
            (tree.Nodes.filter (countedPod fuel tree parentNode)) with ⟨err, he⟩ | ⟨st2, he⟩
          · simp only at h; rw [he] at h; cases h
          · simp only at h; rw [he] at h; cases h
        · intro e he
          simp only [List.mem_cons] at he
          rcases he with rfl | rfl | he
          · exact ⟨fun k hk => (by cases hk), fun ns name g hk => (by cases hk)⟩
          · exact ⟨fun k hk => (by cases hk; rfl), fun ns name g hk => (by cases hk)⟩
          · rcases forceDelete_events grace st inp _ e he with
              rfl | ⟨s, rfl⟩ | rfl | ⟨p, hp, rfl⟩
            · exact ⟨fun k hk => (by cases hk), fun ns name g hk => (by cases hk)⟩
            · exact ⟨fun k hk => (by cases hk), fun ns name g hk => (by cases hk)⟩
            · exact ⟨fun k hk => (by cases hk), fun ns name g hk => (by cases hk)⟩
            · refine ⟨fun k hk => (by cases hk), fun ns name g hk => ?_⟩
              cases hk
              have hp2 := List.mem_filter.mp hp
              exact ⟨p, hp2.1, hp2.2, rfl, rfl⟩
      · rw [if_neg hf] at ht
        rw [ht]
        refine ⟨⟨fun h => (by cases h), fun h => absurd h hne⟩, fun h => (by cases h),
          fun _ => by simp, ?_⟩
        intro e he
        simp only [List.mem_cons, List.mem_singleton, List.not_mem_nil, or_false] at he
        rcases he with rfl | rfl
        · exact ⟨fun k hk => (by cases hk), fun ns name g hk => (by cases hk)⟩
        · exact ⟨fun k hk => (by cases hk; rfl), fun ns name g hk => (by cases hk)⟩
  · intro parent noGrace grace st inp hctx htree hfind hstuck
    have hnone := collectPods_none fuel tree parentNode tree.Nodes (0, []) hstuck
    unfold tick
    simp only [hctx, htree, hfind, hnone]
  · intro hacyc
    obtain ⟨F, hF⟩ := isChildNode_answers tree hacyc parentNode tree.Nodes
    exact ⟨F, fun fuel2 hfuel => hspec fuel2 (fun n hn _ => hF fuel2 hfuel n hn)⟩

theorem tick_pod_count_witness :
    collectPods 3 daemonTree sampleDeployment daemonTree.Nodes (0, []) =
      some (1, [samplePod]) ∧
    isChildNode 3 daemonTree (some daemonPod) (some sampleDeployment) = some true ∧
    (tick 3 sampleWorkload true 30 { firstLoop := true, haveK8sCli := false }
      daemonOnlyTick).2 = .done none :=
  ⟨((tick_pod_count 3 daemonTree sampleDeployment).1 (by decide)).trans (by decide),
    by decide,
    ((tick_pod_count 3 daemonOnlyTree sampleDeployment).2.2.2.2.1 sampleWorkload true 30
      { firstLoop := true, haveK8sCli := false } daemonOnlyTick rfl rfl (by decide)
      (by decide)).1.mpr (by decide)⟩

/-! ## A tick that does not find the target -/

/-- C7: in every tick whose fetched tree has no node with the identity of the
target, the poller returns success at that tick; the only call of the tick is
the tree fetch, so no pod delete and no application fetch is issued, whatever
else the tree holds and whether force-delete is enabled or not. -/
theorem tick_target_absent (fuel : Nat) (parent : ResourceStatus) (noGrace : Bool)
    (grace : Int) (st : PollState) (inp : TickInput) (tree : ApplicationTree)
    (hctx : inp.ctxErr = none) (htree : inp.tree = .ok tree)
    (habsent : ∀ n ∈ tree.Nodes ++ tree.OrphanedNodes,
      ¬ (n.Group = parent.Group ∧ n.Kind = parent.Kind ∧ n.Namespace = parent.Namespace ∧
        n.Name = parent.Name)) :
    tick fuel parent noGrace grace st inp = ([Event.resourceTree], .done none) ∧
    (∀ rest, pollLoop fuel parent noGrace grace st (inp :: rest) =
      ([[Event.resourceTree]], .returned none)) ∧
    (∀ e ∈ (tick fuel parent noGrace grace st inp).1,
      e.isDelete = false ∧ e ≠ Event.getApp) := by
  have hfind := findNode_none.mpr habsent
  have ht : tick fuel parent noGrace grace st inp = ([Event.resourceTree], .done none) := by
    unfold tick
    simp only [hctx, htree, hfind]
  refine ⟨ht, ?_, ?_⟩
  · intro rest
    unfold pollLoop
    rw [ht]
  · intro e he
    rw [ht] at he
    simp only [List.mem_singleton] at he
    subst he
    exact ⟨rfl, by intro hc; cases hc⟩

theorem tick_target_absent_witness :
    tick 0 ⟨"apps", "v1", "StatefulSet", "game", "match", 2⟩ true 0
      { firstLoop := true, haveK8sCli := false }
      { ctxErr := none, tree := .ok sampleTree, app := .ok ⟨[], "https://cluster"⟩,
        k8s := none, delete := fun _ => none }
      = ([Event.resourceTree], .done none) :=
  (tick_target_absent 0 ⟨"apps", "v1", "StatefulSet", "game", "match", 2⟩ true 0
    { firstLoop := true, haveK8sCli := false }
    { ctxErr := none, tree := .ok sampleTree, app := .ok ⟨[], "https://cluster"⟩,
      k8s := none, delete := fun _ => none }
    sampleTree rfl rfl (by decide)).1

/-! ## The force-delete pass -/

/-- The delete loop either deletes every pod and returns nil, all errors met
being NotFound, or stops at the first pod whose delete fails otherwise. -/
theorem forceDeleteLoop_cases (delete : Nat → Option GoError) (grace : Int)
    (pods : List ResourceNode) (i : Nat) :
    (forceDeleteLoop delete grace i pods =
        (pods.map (fun p => Event.deletePod p.Namespace p.Name grace), none) ∧
      ∀ j, j < pods.length → ∀ e, delete (i + j) = some e → e.IsNotFound = true) ∨
    (∃ k p e, pods[k]? = some p ∧ delete (i + k) = some e ∧ e.IsNotFound = false ∧
      (∀ j, j < k → ∀ e2, delete (i + j) = some e2 → e2.IsNotFound = true) ∧
      forceDeleteLoop delete grace i pods =
        ((pods.take (k + 1)).map (fun p => Event.deletePod p.Namespace p.Name grace),
          some (GoError.wrap
            ("force delete pod " ++ p.Namespace ++ "/" ++ p.Name ++ " failed: ") e))) := by
  induction pods generalizing i with
  | nil => exact Or.inl ⟨rfl, fun j hj => by simp at hj⟩
  | cons p rest ih =>
    have hswallow : (∀ e, delete i = some e → e.IsNotFound = true) →
        forceDeleteLoop delete grace i (p :: rest) =
          (Event.deletePod p.Namespace p.Name grace ::
            (forceDeleteLoop delete grace (i + 1) rest).1,
            (forceDeleteLoop delete grace (i + 1) rest).2) := by
      intro h0
      rw [forceDeleteLoop]
      cases hd : delete i with
      | none => rfl
      | some e => simp [h0 e hd]
    by_cases h0 : ∀ e, delete i = some e → e.IsNotFound = true
    · rcases ih (i + 1) with ⟨heq, hall⟩ | ⟨k, q, e, hq, hde, hnf, hmin, heq⟩
      · left
        refine ⟨?_, ?_⟩
        · rw [hswallow h0, heq]; rfl
        · intro j hj e he
          cases j with
          | zero => exact h0 e he
          | succ j =>
            have hj2 : j < rest.length := by simpa using hj
            exact hall j hj2 e (by rw [← he]; congr 1; omega)
      · right
        refine ⟨k + 1, q, e, by simpa using hq, by rw [← hde]; congr 1; omega, hnf, ?_, ?_⟩
        · intro j hj e2 he2
          cases j with
          | zero => exact h0 e2 he2
          | succ j => exact hmin j (by omega) e2 (by rw [← he2]; congr 1; omega)
        · rw [hswallow h0, heq]; rfl
    · right
      push_neg at h0
      obtain ⟨e, hde, hnf⟩ := h0
      have hnf2 : e.IsNotFound = false := by simpa using hnf
      refine ⟨0, p, e, by simp, hde, hnf2, fun j hj => by omega, ?_⟩
      rw [forceDeleteLoop]
      simp [hde, hnf2]

theorem forceDeleteLoop_fails_iff (delete : Nat → Option GoError) (grace : Int)
    (pods : List ResourceNode) :
    (forceDeleteLoop delete grace 0 pods).2.isSome = true ↔
      ∃ k, k < pods.length ∧ ∃ e, delete k = some e ∧ e.IsNotFound = false := by
  rcases forceDeleteLoop_cases delete grace pods 0 with ⟨heq, hall⟩ | ⟨k, p, e, hp, hde, hnf, _, heq⟩
  · rw [heq]
    constructor
    · intro h; cases h
    · rintro ⟨k, hk, e, hde, hnf⟩
      have := hall k hk e (by simpa using hde)
      rw [hnf] at this; cases this
  · rw [heq]
    constructor
    · intro _
      have hk : k < pods.length := by
        by_contra hlt
        rw [List.getElem?_eq_none (by omega)] at hp
        cases hp
      exact ⟨k, hk, e, by simpa using hde, hnf⟩
    · intro _; rfl

theorem forceDeleteLoop_first (delete : Nat → Option GoError) (grace : Int)
    (pods : List ResourceNode) (k : Nat) (p : ResourceNode) (e : GoError)
    (hp : pods[k]? = some p) (hde : delete k = some e) (hnf : e.IsNotFound = false)
    (hmin : ∀ j, j < k → ∀ e2, delete j = some e2 → e2.IsNotFound = true) :
    forceDeleteLoop delete grace 0 pods =
      ((pods.take (k + 1)).map (fun p => Event.deletePod p.Namespace p.Name grace),
        some (GoError.wrap
          ("force delete pod " ++ p.Namespace ++ "/" ++ p.Name ++ " failed: ") e)) := by
  have hk : k < pods.length := by
    by_contra hlt
    rw [List.getElem?_eq_none (by omega)] at hp
    cases hp
  rcases forceDeleteLoop_cases delete grace pods 0 with
    ⟨_, hall⟩ | ⟨k2, p2, e2, hp2, hde2, hnf2, hmin2, heq⟩
  · have := hall k hk e (by simpa using hde)
    rw [hnf] at this; cases this
  · simp only [Nat.zero_add] at hde2 hmin2
    have hkk : k2 = k := by
      rcases Nat.lt_trichotomy k2 k with hlt | heq2 | hgt
      · have := hmin k2 hlt e2 hde2
        rw [hnf2] at this; cases this
      · exact heq2
      · have := hmin2 k hgt e hde
        rw [hnf] at this; cases this
    subst hkk
    rw [hp] at hp2
    rw [hde] at hde2
    cases hp2
    cases hde2
    exact heq

theorem forceDelete_pass (grace : Int) (st : PollState) (inp : TickInput)
    (podNodes : List ResourceNode) (app : Application)
    (happ : inp.app = .ok app) (hk8s : st.haveK8sCli = true ∨ inp.k8s = none) :
    forceDelete grace st inp podNodes =
      (Event.getApp :: (if st.haveK8sCli = true then [] else [Event.newK8sClient app.Server]) ++
          Event.forceDeleting podNodes.length grace ::
            (forceDeleteLoop inp.delete grace 0 podNodes).1,
        match (forceDeleteLoop inp.delete grace 0 podNodes).2 with
        | some err => .done (some err)
        | none => .next { firstLoop := false, haveK8sCli := true }) := by
  unfold forceDelete
  simp only [happ]
  by_cases hh : st.haveK8sCli = true
  · simp only [hh, if_true]
    cases (forceDeleteLoop inp.delete grace 0 podNodes).2 <;> rfl
  · have hh2 : st.haveK8sCli = false := by simpa using hh
    have hk8s2 : inp.k8s = none := hk8s.resolve_left hh
    simp only [hh2, Bool.false_eq_true, if_false, hk8s2]
    cases (forceDeleteLoop inp.delete grace 0 podNodes).2 <;> rfl

theorem filter_isDelete_pass (grace : Int) (st : PollState) (server : String) (pods n : Nat)
    (ps : List ResourceNode) :
    List.filter Event.isDelete
      (Event.resourceTree :: Event.remaining pods :: (Event.getApp ::
        (if st.haveK8sCli = true then [] else [Event.newK8sClient server]) ++
          Event.forceDeleting n grace ::
            ps.map (fun p => Event.deletePod p.Namespace p.Name grace))) =
      ps.map (fun p => Event.deletePod p.Namespace p.Name grace) := by
  have hmap : (ps.map (fun p => Event.deletePod p.Namespace p.Name grace)).filter
      Event.isDelete = ps.map (fun p => Event.deletePod p.Namespace p.Name grace) := by
    rw [List.filter_eq_self]
    intro e he
    obtain ⟨p, _, rfl⟩ := List.mem_map.mp he
    rfl
  by_cases hh : st.haveK8sCli = true
  · simp [hh, List.filter_cons, Event.isDelete, hmap]
  · simp [hh, List.filter_cons, Event.isDelete, hmap]

/-- C10: in a tick that runs a force-delete pass over the pods it observed,
the poller fails exactly when some delete returns an error other than
NotFound. When every error met is NotFound the pass deletes every observed
pod and the poller goes on; otherwise the poller returns, at the first such
error, an error wrapping it, having issued the delete calls up to that pod
and none after it. -/
theorem forcePass_outcome (fuel : Nat) (parent : ResourceStatus) (grace : Int)
    (st : PollState) (inp : TickInput) (tree : ApplicationTree) (parentNode : ResourceNode)
    (pods : Nat) (podNodes : List ResourceNode) (app : Application)
    (hctx : inp.ctxErr = none) (htree : inp.tree = .ok tree)
    (hfind : tree.FindNode parent.Group parent.Kind parent.Namespace parent.Name
      = some parentNode)
    (hcount : collectPods fuel tree parentNode tree.Nodes (0, []) = some (pods, podNodes))
    (hpods : pods ≠ 0) (hfirst : st.firstLoop = true)
    (happ : inp.app = .ok app) (hk8s : inp.k8s = none) :
    ((∃ err, (tick fuel parent true grace st inp).2 = .done (some err)) ↔
      ∃ k, k < podNodes.length ∧ ∃ e, inp.delete k = some e ∧ e.IsNotFound = false) ∧
    ((∀ k, k < podNodes.length → ∀ e, inp.delete k = some e → e.IsNotFound = true) →
      (tick fuel parent true grace st inp).2 = .next { firstLoop := false, haveK8sCli := true } ∧
      (tick fuel parent true grace st inp).1.filter Event.isDelete =
        podNodes.map (fun p => Event.deletePod p.Namespace p.Name grace)) ∧
    (∀ k p e, podNodes[k]? = some p → inp.delete k = some e → e.IsNotFound = false →
      (∀ j, j < k → ∀ e2, inp.delete j = some e2 → e2.IsNotFound = true) →
      (tick fuel parent true grace st inp).2 = .done (some (GoError.wrap
        ("force delete pod " ++ p.Namespace ++ "/" ++ p.Name ++ " failed: ") e)) ∧
      (tick fuel parent true grace st inp).1.filter Event.isDelete =
        (podNodes.take (k + 1)).map (fun p => Event.deletePod p.Namespace p.Name grace)) := by
  have ht := tick_counted fuel parent true grace st inp tree parentNode pods podNodes
    hctx htree hfind hcount
  rw [if_neg hpods, if_pos (by simp [hfirst]), forceDelete_pass grace st inp podNodes app happ (Or.inr hk8s)]
    at ht
  rw [ht]
  refine ⟨?_, ?_, ?_⟩
  · rw [← forceDeleteLoop_fails_iff inp.delete grace podNodes]
    cases (forceDeleteLoop inp.delete grace 0 podNodes).2 with
    | none => simp
    | some err => simp
  · intro hall
    rcases forceDeleteLoop_cases inp.delete grace podNodes 0 with
      ⟨heq, _⟩ | ⟨k, p, e, hp, hde, hnf, _, _⟩
    · rw [heq]
      exact ⟨rfl, filter_isDelete_pass grace st app.Server pods podNodes.length podNodes⟩
    · have hk : k < podNodes.length := by
        by_contra hlt
        rw [List.getElem?_eq_none (by omega)] at hp
        cases hp
      have := hall k hk e (by simpa using hde)
      rw [hnf] at this; cases this
  · intro k p e hp hde hnf hmin
    rw [forceDeleteLoop_first inp.delete grace podNodes k p e hp hde hnf hmin]
    exact ⟨rfl, filter_isDelete_pass grace st app.Server pods podNodes.length _⟩

theorem forcePass_outcome_witness :
    (tick 3 sampleWorkload true 30 { firstLoop := true, haveK8sCli := false } refusedTick).2 =
      .done (some (GoError.wrap
        ("force delete pod " ++ samplePod.Namespace ++ "/" ++ samplePod.Name ++ " failed: ")
        (GoError.leaf "pods is forbidden" false))) :=
  ((forcePass_outcome 3 sampleWorkload 30 { firstLoop := true, haveK8sCli := false } refusedTick
    sampleTree sampleDeployment 1 [samplePod] { Resources := [], Server := "https://cluster" }
    rfl rfl (by decide) (by decide) (by decide) rfl rfl rfl).2.2
      0 samplePod (GoError.leaf "pods is forbidden" false) rfl rfl rfl
      (fun j hj => absurd hj (Nat.not_lt_zero j))).1

/-! ## How often a force-delete pass is issued -/

theorem passCount_deleteLoop (delete : Nat → Option GoError) (grace : Int)
    (pods : List ResourceNode) (i : Nat) :
    (forceDeleteLoop delete grace i pods).1.filter Event.isForcePass = [] := by
  rw [List.filter_eq_nil_iff]
  intro e he
  obtain ⟨p, _, rfl⟩ := forceDeleteLoop_events delete grace pods i e he
  simp [Event.isForcePass]

theorem forceDelete_summary (grace : Int) (st : PollState) (inp : TickInput)
    (pods : List ResourceNode) :
    passCount (forceDelete grace st inp pods).1 ≤ 1 ∧
    (∀ e ∈ (forceDelete grace st inp pods).1, e.isRemaining = false) ∧
    (∀ st2, (forceDelete grace st inp pods).2 = .next st2 →
      st2.firstLoop = false ∧ passCount (forceDelete grace st inp pods).1 = 1) ∧
    (∀ app, inp.app = .ok app → (st.haveK8sCli = true ∨ inp.k8s = none) →
      passCount (forceDelete grace st inp pods).1 = 1) := by
  have hrem : ∀ e ∈ (forceDelete grace st inp pods).1, e.isRemaining = false := by
    intro e he
    rcases forceDelete_events grace st inp pods e he with rfl | ⟨s, rfl⟩ | rfl | ⟨p, _, rfl⟩ <;> rfl
  have hpass : ∀ app, inp.app = .ok app → (st.haveK8sCli = true ∨ inp.k8s = none) →
      passCount (forceDelete grace st inp pods).1 = 1 := by
    intro app happ hk
    rw [forceDelete_pass grace st inp pods app happ hk]
    unfold passCount
    by_cases hh : st.haveK8sCli = true
    · simp [hh, List.filter_cons, Event.isForcePass, passCount_deleteLoop]
    · simp [hh, List.filter_cons, Event.isForcePass, passCount_deleteLoop]
  cases happ : inp.app with
  | error err =>
    have hfd : forceDelete grace st inp pods = ([Event.getApp], .done (some err)) := by
      unfold forceDelete; simp only [happ]
    refine ⟨?_, hrem, ?_, ?_⟩
    · rw [hfd]; simp [passCount, Event.isForcePass]
    · intro st2 h2; rw [hfd] at h2; cases h2
    · intro app h; cases h
  | ok app =>
    by_cases hk : st.haveK8sCli = true ∨ inp.k8s = none
    · have h1 := hpass app happ hk
      refine ⟨by omega, hrem, ?_, fun _ _ _ => h1⟩
      intro st2 h2
      rw [forceDelete_pass grace st inp pods app happ hk] at h2
      refine ⟨?_, h1⟩
      simp only at h2
      cases hr : (forceDeleteLoop inp.delete grace 0 pods).2 with
      | none => rw [hr] at h2; cases h2; rfl
      | some err => rw [hr] at h2; cases h2
    · push_neg at hk
      obtain ⟨hh, hne⟩ := hk
      have hh2 : st.haveK8sCli = false := by simpa using hh
      obtain ⟨err, herr⟩ := Option.ne_none_iff_exists'.mp hne
      have hfd : forceDelete grace st inp pods =
          ([Event.getApp, Event.newK8sClient app.Server], .done (some err)) := by
        unfold forceDelete
        simp only [happ, hh2, herr, Bool.false_eq_true, if_false]
      refine ⟨?_, hrem, ?_, ?_⟩
      · rw [hfd]; simp [passCount, Event.isForcePass]
      · intro st2 h2; rw [hfd] at h2; cases h2
      · intro _ _ hk2
        rcases hk2 with h | h
        · exact absurd h hh
        · exact absurd h hne

/-- The three ways a tick can go: it ends the poller before reporting pods, it
reports pods and runs the force-delete block, or it reports pods and goes on
unchanged. -/
theorem tick_cases (fuel : Nat) (parent : ResourceStatus) (noGrace : Bool) (grace : Int)
    (st : PollState) (inp : TickInput) :
    ((∀ e ∈ (tick fuel parent noGrace grace st inp).1,
        e = Event.resourceTree ∨ e = Event.allDeleted) ∧
      ∀ st2, (tick fuel parent noGrace grace st inp).2 ≠ .next st2) ∨
    (∃ pods podNodes, pods ≠ 0 ∧ (noGrace && st.firstLoop) = true ∧
      tick fuel parent noGrace grace st inp =
        (Event.resourceTree :: Event.remaining pods :: (forceDelete grace st inp podNodes).1,
          (forceDelete grace st inp podNodes).2)) ∨
    (∃ pods, pods ≠ 0 ∧ (noGrace && st.firstLoop) = false ∧
      tick fuel parent noGrace grace st inp =
        ([Event.resourceTree, Event.remaining pods], .next st)) := by
  cases hctx : inp.ctxErr with
  | some err =>
    left
    have ht : tick fuel parent noGrace grace st inp = ([], .done (some err)) := by
      unfold tick; simp only [hctx]
    rw [ht]
    exact ⟨fun e he => (by cases he), fun st2 h => (by cases h)⟩
  | none =>
    cases htree : inp.tree with
    | error err =>
      left
      have ht : tick fuel parent noGrace grace st inp =
          ([Event.resourceTree], .done (some err)) := by
        unfold tick; simp only [hctx, htree]
      rw [ht]
      exact ⟨fun e he => Or.inl (by simpa using he), fun st2 h => (by cases h)⟩
    | ok tree =>
      cases hfind : tree.FindNode parent.Group parent.Kind parent.Namespace parent.Name with
      | none =>
        left
        have ht : tick fuel parent noGrace grace st inp =
            ([Event.resourceTree], .done none) := by
          unfold tick; simp only [hctx, htree, hfind]
        rw [ht]
        exact ⟨fun e he => Or.inl (by simpa using he), fun st2 h => (by cases h)⟩
      | some parentNode =>
        cases hcount : collectPods fuel tree parentNode tree.Nodes (0, []) with
        | none =>
          left
          have ht : tick fuel parent noGrace grace st inp =
              ([Event.resourceTree], .stuck) := by
            unfold tick; simp only [hctx, htree, hfind, hcount]
          rw [ht]
          exact ⟨fun e he => Or.inl (by simpa using he), fun st2 h => (by cases h)⟩
        | some res =>
          obtain ⟨pods, podNodes⟩ := res
          have ht := tick_counted fuel parent noGrace grace st inp tree parentNode pods
            podNodes hctx htree hfind hcount
          by_cases hp : pods = 0
          · left
            rw [if_pos hp] at ht
            rw [ht]
            refine ⟨fun e he => ?_, fun st2 h => (by cases h)⟩
            simpa using he
          · rw [if_neg hp] at ht
            by_cases hf : (noGrace && st.firstLoop) = true
            · rw [if_pos hf] at ht
              exact Or.inr (Or.inl ⟨pods, podNodes, hp, hf, ht⟩)
            · rw [if_neg hf] at ht
              exact Or.inr (Or.inr ⟨pods, hp, by simpa using hf, ht⟩)

theorem tick_summary (fuel : Nat) (parent : ResourceStatus) (noGrace : Bool) (grace : Int)
    (st : PollState) (inp : TickInput) :
    passCount (tick fuel parent noGrace grace st inp).1 ≤ 1 ∧
    (0 < passCount (tick fuel parent noGrace grace st inp).1 →
      noGrace = true ∧ st.firstLoop = true ∧
        observedPods (tick fuel parent noGrace grace st inp).1) ∧
    (∀ st2, (tick fuel parent noGrace grace st inp).2 = .next st2 →
      observedPods (tick fuel parent noGrace grace st inp).1 ∧
      ((noGrace && st.firstLoop) = true →
        st2.firstLoop = false ∧ passCount (tick fuel parent noGrace grace st inp).1 = 1) ∧
      ((noGrace && st.firstLoop) = false → st2 = st)) ∧
    (observedPods (tick fuel parent noGrace grace st inp).1 → noGrace = true →
      st.firstLoop = true → (∃ app, inp.app = .ok app) → inp.k8s = none →
      passCount (tick fuel parent noGrace grace st inp).1 = 1) := by
  rcases tick_cases fuel parent noGrace grace st inp with
    ⟨hev, hnext⟩ | ⟨pods, podNodes, hp, hf, ht⟩ | ⟨pods, hp, hf, ht⟩
  · have hzero : passCount (tick fuel parent noGrace grace st inp).1 = 0 := by
      unfold passCount
      rw [List.length_eq_zero, List.filter_eq_nil_iff]
      intro e he
      rcases hev e he with rfl | rfl <;> simp [Event.isForcePass]
    have hobs : ¬ observedPods (tick fuel parent noGrace grace st inp).1 := by
      rintro ⟨k, _, hk⟩
      rcases hev _ hk with h | h <;> cases h
    refine ⟨by omega, fun h => (by omega), fun st2 h => absurd h (hnext st2), ?_⟩
    intro h; exact absurd h hobs
  · obtain ⟨hle, hrem, hnx, hpass⟩ := forceDelete_summary grace st inp podNodes
    have hcnt : passCount (tick fuel parent noGrace grace st inp).1 =
        passCount (forceDelete grace st inp podNodes).1 := by
      rw [ht]; simp [passCount, List.filter_cons, Event.isForcePass]
    have hobs : observedPods (tick fuel parent noGrace grace st inp).1 := by
      rw [ht]; exact ⟨pods, Nat.pos_of_ne_zero hp, by simp⟩
    have hng : noGrace = true ∧ st.firstLoop = true := by simpa using hf
    refine ⟨by omega, fun _ => ⟨hng.1, hng.2, hobs⟩, ?_, ?_⟩
    · intro st2 h2
      rw [ht] at h2
      have := hnx st2 h2
      refine ⟨hobs, fun _ => ⟨this.1, by omega⟩, fun hcontra => ?_⟩
      rw [hf] at hcontra; cases hcontra
    · rintro _ _ hfl ⟨app, happ⟩ hk8s
      rw [hcnt]
      exact hpass app happ (Or.inr hk8s)
  · have hzero : passCount (tick fuel parent noGrace grace st inp).1 = 0 := by
      rw [ht]; simp [passCount, List.filter_cons, Event.isForcePass]
    have hobs : observedPods (tick fuel parent noGrace grace st inp).1 := by
      rw [ht]; exact ⟨pods, Nat.pos_of_ne_zero hp, by simp⟩
    refine ⟨by omega, fun h => (by omega), ?_, ?_⟩
    · intro st2 h2
      rw [ht] at h2
      refine ⟨hobs, fun hcontra => ?_, fun _ => ?_⟩
      · rw [hf] at hcontra; cases hcontra
      · cases h2; rfl
    · intro _ hng hfl _ _
      rw [hng, hfl] at hf
      cases hf

theorem forceDelete_getApp (grace : Int) (st : PollState) (inp : TickInput)
    (pods : List ResourceNode) : Event.getApp ∈ (forceDelete grace st inp pods).1 := by
  unfold forceDelete
  cases inp.app with
  | error err => simp
  | ok app =>
    simp only
    split
    · simp
    · split <;> simp

/-- A tick that reports pods left with force-delete enabled and no pass issued
so far enters the force-delete block: it fetches the application. -/
theorem tick_enters (fuel : Nat) (parent : ResourceStatus) (noGrace : Bool) (grace : Int)
    (st : PollState) (inp : TickInput)
    (hobs : observedPods (tick fuel parent noGrace grace st inp).1)
    (hng : noGrace = true) (hfl : st.firstLoop = true) :
    Event.getApp ∈ (tick fuel parent noGrace grace st inp).1 := by
  rcases tick_cases fuel parent noGrace grace st inp with
    ⟨hev, _⟩ | ⟨pods, podNodes, _, _, ht⟩ | ⟨pods, _, hf, _⟩
  · obtain ⟨k, _, hk⟩ := hobs
    rcases hev _ hk with h | h <;> cases h
  · rw [ht]
    exact List.mem_cons_of_mem _ (List.mem_cons_of_mem _ (forceDelete_getApp grace st inp _))
  · rw [hng, hfl] at hf
    cases hf

theorem passCount_append (a b : List Event) :
    passCount (a ++ b) = passCount a + passCount b := by
  simp [passCount, List.filter_append]

theorem pollLoop_next (fuel : Nat) (parent : ResourceStatus) (noGrace : Bool) (grace : Int)
    (st st2 : PollState) (inp : TickInput) (rest : List TickInput)
    (h : (tick fuel parent noGrace grace st inp).2 = .next st2) :
    pollLoop fuel parent noGrace grace st (inp :: rest) =
      ((tick fuel parent noGrace grace st inp).1 ::
        (pollLoop fuel parent noGrace grace st2 rest).1,
        (pollLoop fuel parent noGrace grace st2 rest).2) := by
  rw [pollLoop]
  cases ht : tick fuel parent noGrace grace st inp with
  | mk evs res =>
    rw [ht] at h
    simp only at h
    subst h
    rfl

theorem pollLoop_stop (fuel : Nat) (parent : ResourceStatus) (noGrace : Bool) (grace : Int)
    (st : PollState) (inp : TickInput) (rest : List TickInput)
    (h : ∀ st2, (tick fuel parent noGrace grace st inp).2 ≠ .next st2) :
    (pollLoop fuel parent noGrace grace st (inp :: rest)).1 =
      [(tick fuel parent noGrace grace st inp).1] := by
  rw [pollLoop]
  cases ht : tick fuel parent noGrace grace st inp with
  | mk evs res =>
    rw [ht] at h
    cases res with
    | next st2 => exact absurd rfl (h st2)
    | done err => rfl
    | stuck => rfl

/-- Without force-delete, or once a pass has been issued, no tick issues a
pass. -/
theorem pollLoop_quiet (fuel : Nat) (parent : ResourceStatus) (noGrace : Bool) (grace : Int)
    (st : PollState) (ticks : List TickInput) (hq : (noGrace && st.firstLoop) = false) :
    passCount (pollLoop fuel parent noGrace grace st ticks).1.flatten = 0 := by
  induction ticks with
  | nil => simp [pollLoop, passCount]
  | cons inp rest ih =>
    obtain ⟨_, hpos, hnx, _⟩ := tick_summary fuel parent noGrace grace st inp
    have h0 : passCount (tick fuel parent noGrace grace st inp).1 = 0 := by
      by_contra hne
      obtain ⟨h1, h2, _⟩ := hpos (Nat.pos_of_ne_zero hne)
      rw [h1, h2] at hq
      cases hq
    by_cases hn : ∃ st2, (tick fuel parent noGrace grace st inp).2 = .next st2
    · obtain ⟨st2, h2⟩ := hn
      have hst : st2 = st := (hnx st2 h2).2.2 hq
      subst hst
      rw [pollLoop_next fuel parent noGrace grace st2 st2 inp rest h2]
      simp only [List.flatten_cons]
      rw [passCount_append, h0, ih]
    · push_neg at hn
      rw [pollLoop_stop fuel parent noGrace grace st inp rest hn]
      simp only [List.flatten_cons, List.flatten_nil, List.append_nil]
      exact h0

/-- The ticks of a run, from any state of the loop: at most one pass in all,
and only the first tick can hold it. -/
theorem pollLoop_once (fuel : Nat) (parent : ResourceStatus) (noGrace : Bool) (grace : Int)
    (st : PollState) (ticks : List TickInput) :
    passCount (pollLoop fuel parent noGrace grace st ticks).1.flatten ≤ 1 ∧
    (∀ (i : Nat) (evs : List Event),
      (pollLoop fuel parent noGrace grace st ticks).1[i]? = some evs →
      0 < passCount evs → i = 0 ∧ noGrace = true ∧ observedPods evs) ∧
    (∀ evs, (pollLoop fuel parent noGrace grace st ticks).1[0]? = some evs →
      1 < (pollLoop fuel parent noGrace grace st ticks).1.length → observedPods evs) ∧
    (∀ (evs : List Event) (inp : TickInput),
      (pollLoop fuel parent noGrace grace st ticks).1[0]? = some evs →
      ticks[0]? = some inp → evs = (tick fuel parent noGrace grace st inp).1) := by
  cases ticks with
  | nil =>
    refine ⟨by simp [pollLoop, passCount], ?_, ?_, ?_⟩ <;> simp [pollLoop]
  | cons inp rest =>
    obtain ⟨hle, hpos, hnx, _⟩ := tick_summary fuel parent noGrace grace st inp
    by_cases hn : ∃ st2, (tick fuel parent noGrace grace st inp).2 = .next st2
    · obtain ⟨st2, h2⟩ := hn
      obtain ⟨hobs, hforce, hsame⟩ := hnx st2 h2
      have htail : passCount (pollLoop fuel parent noGrace grace st2 rest).1.flatten = 0 ∧
          passCount (tick fuel parent noGrace grace st inp).1 +
            passCount (pollLoop fuel parent noGrace grace st2 rest).1.flatten ≤ 1 := by
        by_cases hf : (noGrace && st.firstLoop) = true
        · have hq : (noGrace && st2.firstLoop) = false := by
            rw [(hforce hf).1]; simp
          have := pollLoop_quiet fuel parent noGrace grace st2 rest hq
          exact ⟨this, by omega⟩
        · have hf2 : (noGrace && st.firstLoop) = false := by simpa using hf
          have hst := hsame hf2
          subst hst
          have := pollLoop_quiet fuel parent noGrace grace st2 rest hf2
          exact ⟨this, by omega⟩
      rw [pollLoop_next fuel parent noGrace grace st st2 inp rest h2]
      refine ⟨?_, ?_, ?_, ?_⟩
      · simp only [List.flatten_cons]
        rw [passCount_append]
        exact htail.2
      · intro i evs hi hpc
        cases i with
        | zero =>
          simp only [List.getElem?_cons_zero, Option.some.injEq] at hi
          subst hi
          exact ⟨rfl, (hpos hpc).1, hobs⟩
        | succ i =>
          exfalso
          simp only [List.getElem?_cons_succ] at hi
          have hmem : evs ∈ (pollLoop fuel parent noGrace grace st2 rest).1 :=
            List.mem_iff_getElem?.mpr ⟨i, hi⟩
          obtain ⟨l1, l2, hsplit⟩ := List.append_of_mem hmem
          have hz := htail.1
          rw [hsplit] at hz
          simp only [List.flatten_append, List.flatten_cons] at hz
          rw [passCount_append, passCount_append] at hz
          omega
      · intro evs hi _
        simp only [List.getElem?_cons_zero, Option.some.injEq] at hi
        subst hi
        exact hobs
      · intro evs inp2 hi hinp
        simp only [List.getElem?_cons_zero, Option.some.injEq] at hi hinp
        subst hi; subst hinp; rfl
    · push_neg at hn
      rw [pollLoop_stop fuel parent noGrace grace st inp rest hn]
      refine ⟨?_, ?_, ?_, ?_⟩
      · simpa using hle
      · intro i evs hi hpc
        cases i with
        | zero =>
          simp only [List.getElem?_cons_zero, Option.some.injEq] at hi
          subst hi
          exact ⟨rfl, (hpos hpc).1, (hpos hpc).2.2⟩
        | succ i => simp at hi
      · intro evs _ hlen
        simp at hlen
      · intro evs inp2 hi hinp
        simp only [List.getElem?_cons_zero, Option.some.injEq] at hi hinp
        subst hi; subst hinp; rfl

theorem pollLoop_done (fuel : Nat) (parent : ResourceStatus) (noGrace : Bool) (grace : Int)
    (st : PollState) (inp : TickInput) (rest : List TickInput) (err : Option GoError)
    (h : (tick fuel parent noGrace grace st inp).2 = .done err) :
    pollLoop fuel parent noGrace grace st (inp :: rest) =
      ([(tick fuel parent noGrace grace st inp).1], .returned err) := by
  rw [pollLoop]
  cases ht : tick fuel parent noGrace grace st inp with
  | mk evs res =>
    rw [ht] at h
    simp only at h
    subst h
    rfl

theorem pollLoop_head (fuel : Nat) (parent : ResourceStatus) (noGrace : Bool) (grace : Int)
    (st : PollState) (inp : TickInput) (rest : List TickInput) :
    (pollLoop fuel parent noGrace grace st (inp :: rest)).1[0]? =
      some (tick fuel parent noGrace grace st inp).1 := by
  by_cases hn : ∃ st2, (tick fuel parent noGrace grace st inp).2 = .next st2
  · obtain ⟨st2, h2⟩ := hn
    rw [pollLoop_next fuel parent noGrace grace st st2 inp rest h2]
    simp
  · push_neg at hn
    rw [pollLoop_stop fuel parent noGrace grace st inp rest hn]
    simp

theorem forceDelete_fetch_error (grace : Int) (st : PollState) (inp : TickInput)
    (pods : List ResourceNode) (err : GoError) (happ : inp.app = .error err) :
    forceDelete grace st inp pods = ([Event.getApp], .done (some err)) := by
  unfold forceDelete; simp only [happ]

theorem forceDelete_client_error (grace : Int) (st : PollState) (inp : TickInput)
    (pods : List ResourceNode) (app : Application) (err : GoError)
    (happ : inp.app = .ok app) (hh : st.haveK8sCli = false) (hk : inp.k8s = some err) :
    forceDelete grace st inp pods =
      ([Event.getApp, Event.newK8sClient app.Server], .done (some err)) := by
  unfold forceDelete
  simp only [happ, hh, hk, Bool.false_eq_true, if_false]

/-- The first tick of a poller with force-delete enabled, when it finds pods
left: it enters the force-delete block, and it issues the pass exactly when
the application fetch and the creation of the cluster handle succeed; when
one of them fails the poller returns that error, no pass issued. -/
theorem firstTick_forcePass (fuel : Nat) (parent : ResourceStatus) (grace : Int)
    (inp : TickInput) (rest : List TickInput) (tree : ApplicationTree)
    (parentNode : ResourceNode) (pods : Nat) (podNodes : List ResourceNode)
    (hctx : inp.ctxErr = none) (htree : inp.tree = .ok tree)
    (hfind : tree.FindNode parent.Group parent.Kind parent.Namespace parent.Name
      = some parentNode)
    (hcount : collectPods fuel tree parentNode tree.Nodes (0, []) = some (pods, podNodes))
    (hpods : pods ≠ 0) :
    ∃ evs, (pollTrace fuel none parent true grace (inp :: rest))[0]? = some evs ∧
      observedPods evs ∧ Event.getApp ∈ evs ∧
      (passCount evs = 1 ↔ (∃ app, inp.app = .ok app) ∧ inp.k8s = none) ∧
      (∀ err, inp.app = .error err →
        waitPodsDeleted fuel none parent true grace (inp :: rest) =
          ([[Event.resourceTree, Event.remaining pods, Event.getApp]],
            .returned (some err))) ∧
      (∀ app err, inp.app = .ok app → inp.k8s = some err →
        waitPodsDeleted fuel none parent true grace (inp :: rest) =
          ([[Event.resourceTree, Event.remaining pods, Event.getApp,
            Event.newK8sClient app.Server]], .returned (some err))) := by
  have ht := tick_counted fuel parent true grace { firstLoop := true, haveK8sCli := false }
    inp tree parentNode pods podNodes hctx htree hfind hcount
  rw [if_neg hpods, if_pos (by rfl)] at ht
  have hobs : observedPods (tick fuel parent true grace
      { firstLoop := true, haveK8sCli := false } inp).1 := by
    rw [ht]; exact ⟨pods, Nat.pos_of_ne_zero hpods, by simp⟩
  have hfetch : ∀ err, inp.app = .error err →
      tick fuel parent true grace { firstLoop := true, haveK8sCli := false } inp =
        ([Event.resourceTree, Event.remaining pods, Event.getApp], .done (some err)) := by
    intro err happ
    rw [ht, forceDelete_fetch_error grace _ inp podNodes err happ]
  have hclient : ∀ app err, inp.app = .ok app → inp.k8s = some err →
      tick fuel parent true grace { firstLoop := true, haveK8sCli := false } inp =
        ([Event.resourceTree, Event.remaining pods, Event.getApp,
          Event.newK8sClient app.Server], .done (some err)) := by
    intro app err happ hk
    rw [ht, forceDelete_client_error grace _ inp podNodes app err happ rfl hk]
  refine ⟨_, pollLoop_head fuel parent true grace _ inp rest, hobs,
    tick_enters fuel parent true grace _ inp hobs rfl rfl, ?_, ?_, ?_⟩
  · constructor
    · intro hone
      cases happ : inp.app with
      | error err =>
        rw [hfetch err happ] at hone
        simp [passCount, Event.isForcePass] at hone
      | ok app =>
        cases hk : inp.k8s with
        | none => exact ⟨⟨app, rfl⟩, rfl⟩
        | some err =>
          rw [hclient app err happ hk] at hone
          simp [passCount, Event.isForcePass] at hone
    · rintro ⟨happ, hk⟩
      exact (tick_summary fuel parent true grace _ inp).2.2.2 hobs rfl rfl happ hk
  · intro err happ
    have h2 : (tick fuel parent true grace { firstLoop := true, haveK8sCli := false } inp).2
        = .done (some err) := by rw [hfetch err happ]
    show pollLoop fuel parent true grace { firstLoop := true, haveK8sCli := false }
      (inp :: rest) = _
    rw [pollLoop_done fuel parent true grace _ inp rest (some err) h2, hfetch err happ]
  · intro app err happ hk
    have h2 : (tick fuel parent true grace { firstLoop := true, haveK8sCli := false } inp).2
        = .done (some err) := by rw [hclient app err happ hk]
    show pollLoop fuel parent true grace { firstLoop := true, haveK8sCli := false }
      (inp :: rest) = _
    rw [pollLoop_done fuel parent true grace _ inp rest (some err) h2, hclient app err happ hk]

/-- C9, as stated, fails: with force-delete enabled, a first tick that
observes a pod left but whose application fetch fails issues no force-delete
pass; the poller returns the error of the fetch and no pass is ever issued. -/
theorem forcePass_missed_on_fetch_error :
    observedPods ((pollTrace 3 none sampleWorkload true 30 [fetchFailsTick]).headD []) ∧
    passCount (pollTrace 3 none sampleWorkload true 30 [fetchFailsTick]).flatten = 0 ∧
    waitPodsDeleted 3 none sampleWorkload true 30 [fetchFailsTick] =
      ([[Event.resourceTree, Event.remaining 1, Event.getApp]],
        .returned (some (GoError.leaf "rpc error: code = Unavailable" false))) :=
  ⟨⟨1, by decide, by decide⟩, by decide, by decide⟩

/-- C9, amended: over any sequence of ticks of `waitPodsDeleted` on one
target, at most one force-delete pass is issued. A tick that issues one ran
with force-delete enabled and is the first tick that observed pods left; with
force-delete disabled no tick issues one. With force-delete enabled, the
first tick that observes pods left enters the force-delete block (it fetches
the application) and issues the pass exactly when that fetch and the creation
of the cluster handle succeed; when one of them fails the poller returns that
error and no pass is ever issued. -/
theorem forcePass_at_most_once (fuel : Nat) (newClient : Option GoError)
    (parent : ResourceStatus) (noGrace : Bool) (grace : Int) (ticks : List TickInput) :
    passCount (pollTrace fuel newClient parent noGrace grace ticks).flatten ≤ 1 ∧
    (∀ (i : Nat) (evs : List Event),
      (pollTrace fuel newClient parent noGrace grace ticks)[i]? = some evs →
      0 < passCount evs →
      noGrace = true ∧ observedPods evs ∧
        ∀ (j : Nat) (evs2 : List Event), j < i →
          (pollTrace fuel newClient parent noGrace grace ticks)[j]? = some evs2 →
          ¬ observedPods evs2) ∧
    (noGrace = false →
      passCount (pollTrace fuel newClient parent noGrace grace ticks).flatten = 0) ∧
    (∀ (i : Nat) (evs : List Event) (inp : TickInput), noGrace = true →
      (pollTrace fuel newClient parent noGrace grace ticks)[i]? = some evs →
      ticks[i]? = some inp → observedPods evs →
      (∀ (j : Nat) (evs2 : List Event), j < i →
        (pollTrace fuel newClient parent noGrace grace ticks)[j]? = some evs2 →
        ¬ observedPods evs2) →
      Event.getApp ∈ evs ∧
        ((∃ app, inp.app = .ok app) → inp.k8s = none → passCount evs = 1)) ∧
    (∀ (inp : TickInput) (rest : List TickInput) (tree : ApplicationTree)
      (parentNode : ResourceNode) (pods : Nat) (podNodes : List ResourceNode),
      newClient = none → noGrace = true → ticks = inp :: rest →
      inp.ctxErr = none → inp.tree = .ok tree →
      tree.FindNode parent.Group parent.Kind parent.Namespace parent.Name = some parentNode →
      collectPods fuel tree parentNode tree.Nodes (0, []) = some (pods, podNodes) →
      pods ≠ 0 →
      ∃ evs, (pollTrace fuel newClient parent noGrace grace ticks)[0]? = some evs ∧
        observedPods evs ∧ Event.getApp ∈ evs ∧
        (passCount evs = 1 ↔ (∃ app, inp.app = .ok app) ∧ inp.k8s = none) ∧
        (∀ err, inp.app = .error err →
          waitPodsDeleted fuel newClient parent noGrace grace ticks =
            ([[Event.resourceTree, Event.remaining pods, Event.getApp]],
              .returned (some err))) ∧
        (∀ app err, inp.app = .ok app → inp.k8s = some err →
          waitPodsDeleted fuel newClient parent noGrace grace ticks =
            ([[Event.resourceTree, Event.remaining pods, Event.getApp,
              Event.newK8sClient app.Server]], .returned (some err)))) := by
  have hfirstTick : ∀ (inp : TickInput) (rest : List TickInput) (tree : ApplicationTree)
      (parentNode : ResourceNode) (pods : Nat) (podNodes : List ResourceNode),
      newClient = none → noGrace = true → ticks = inp :: rest →
      inp.ctxErr = none → inp.tree = .ok tree →
      tree.FindNode parent.Group parent.Kind parent.Namespace parent.Name = some parentNode →
      collectPods fuel tree parentNode tree.Nodes (0, []) = some (pods, podNodes) →
      pods ≠ 0 →
      ∃ evs, (pollTrace fuel newClient parent noGrace grace ticks)[0]? = some evs ∧
        observedPods evs ∧ Event.getApp ∈ evs ∧
        (passCount evs = 1 ↔ (∃ app, inp.app = .ok app) ∧ inp.k8s = none) ∧
        (∀ err, inp.app = .error err →
          waitPodsDeleted fuel newClient parent noGrace grace ticks =
            ([[Event.resourceTree, Event.remaining pods, Event.getApp]],
              .returned (some err))) ∧
        (∀ app err, inp.app = .ok app → inp.k8s = some err →
          waitPodsDeleted fuel newClient parent noGrace grace ticks =
            ([[Event.resourceTree, Event.remaining pods, Event.getApp,
              Event.newK8sClient app.Server]], .returned (some err))) := by
    intro inp rest tree parentNode pods podNodes hnc hng hticks hctx htree hfind hcount hpods
    subst hnc; subst hng; subst hticks
    exact firstTick_forcePass fuel parent grace inp rest tree parentNode pods podNodes
      hctx htree hfind hcount hpods
  cases newClient with
  | some err =>
    have htr : pollTrace fuel (some err) parent noGrace grace ticks = [] := rfl
    rw [htr]
    refine ⟨by simp [passCount], ?_, fun _ => by simp [passCount], ?_, hfirstTick⟩
    · intro i evs hi; simp at hi
    · intro i evs inp _ hi; simp at hi
  | none =>
    have htr : pollTrace fuel none parent noGrace grace ticks =
        (pollLoop fuel parent noGrace grace { firstLoop := true, haveK8sCli := false }
          ticks).1 := rfl
    rw [htr]
    obtain ⟨hle, hidx, hcont, hfirst⟩ :=
      pollLoop_once fuel parent noGrace grace { firstLoop := true, haveK8sCli := false } ticks
    refine ⟨hle, ?_, ?_, ?_, hfirstTick⟩
    · intro i evs hi hpc
      obtain ⟨h0, hng, hobs⟩ := hidx i evs hi hpc
      refine ⟨hng, hobs, ?_⟩
      intro j evs2 hj
      omega
    · intro hng
      apply pollLoop_quiet
      rw [hng]; rfl
    · intro i evs inp hng hi hinp hobs hmin
      have hi0 : i = 0 := by
        by_contra hne
        have hlen : i < (pollLoop fuel parent noGrace grace
            { firstLoop := true, haveK8sCli := false } ticks).1.length := by
          by_contra hlt
          rw [List.getElem?_eq_none (by omega)] at hi
          cases hi
        obtain ⟨evs0, h0⟩ : ∃ evs0, (pollLoop fuel parent noGrace grace
            { firstLoop := true, haveK8sCli := false } ticks).1[0]? = some evs0 :=
          ⟨_, List.getElem?_eq_getElem (by omega)⟩
        exact hmin 0 evs0 (Nat.pos_of_ne_zero hne) h0 (hcont evs0 h0 (by omega))
      subst hi0
      have hev := hfirst evs inp hi hinp
      subst hev
      exact ⟨tick_enters fuel parent noGrace grace _ inp hobs hng rfl,
        fun happ hk8s =>
          (tick_summary fuel parent noGrace grace _ inp).2.2.2 hobs hng rfl happ hk8s⟩

theorem forcePass_at_most_once_witness :
    passCount (pollTrace 3 none sampleWorkload true 30 [busyTick, busyTick, busyTick]).flatten
      = 1 :=
  Nat.le_antisymm
    (forcePass_at_most_once 3 none sampleWorkload true 30 [busyTick, busyTick, busyTick]).1
    (by decide)

/-! ## Wave scheduler -/

theorem mem_groupWorkloads (workloads : List ResourceStatus) (w : ResourceStatus) :
    (∃ g ∈ groupWorkloads workloads, w ∈ g) ↔ w ∈ workloads := by
  have hflat : (groupWorkloads workloads).flatten = workloads := by
    cases workloads with
    | nil => rfl
    | cons w0 rest =>
      unfold groupWorkloads
      simp only
      rw [closeGroups_flatten, groupLoop_emitted]
      simp [GroupState.emitted]
  constructor
  · rintro ⟨g, hg, hw⟩
    rw [← hflat]
    exact List.mem_flatten.mpr ⟨g, hg, hw⟩
  · intro hw
    rw [← hflat] at hw
    exact List.mem_flatten.mp hw

theorem groupWorkloads_nonempty (workloads : List ResourceStatus)
    (hs : workloads.Pairwise (fun a b => a.SyncWave ≥ b.SyncWave)) :
    ∀ g ∈ groupWorkloads workloads, g ≠ [] := by
  cases workloads with
  | nil => simp [groupWorkloads]
  | cons w0 rest =>
    have inv0 : GroupInv { groups := [], buf := [], currentWave := w0.SyncWave } := by
      refine ⟨?_, ?_, ?_, ?_, ?_, ?_⟩ <;> simp
    have inv := groupLoop_inv (w0 :: rest) _ inv0 hs (by simp [GroupState.emitted])
    exact (closeGroups_inv _ inv).1

theorem firstError_mem (l : List (Nat × GoError)) (p : Nat × GoError)
    (h : firstError l = some p) : p ∈ l := by
  induction l generalizing p with
  | nil => simp [firstError] at h
  | cons a rest ih =>
    obtain ⟨t, e⟩ := a
    rw [firstError] at h
    cases hr : firstError rest with
    | none =>
      rw [hr] at h
      simp only [Option.some.injEq] at h
      rw [← h]; exact List.mem_cons_self _ _
    | some q =>
      obtain ⟨t2, e2⟩ := q
      rw [hr] at h
      simp only at h
      split at h
      · simp only [Option.some.injEq] at h
        rw [← h]; exact List.mem_cons_self _ _
      · simp only [Option.some.injEq] at h
        rw [← h]; exact List.mem_cons_of_mem _ (ih _ hr)

theorem firstError_none (l : List (Nat × GoError)) (h : firstError l = none) : l = [] := by
  cases l with
  | nil => rfl
  | cons a rest =>
    obtain ⟨t, e⟩ := a
    rw [firstError] at h
    cases hr : firstError rest with
    | none => rw [hr] at h; cases h
    | some q =>
      obtain ⟨t2, e2⟩ := q
      rw [hr] at h
      simp only at h
      split at h <;> cases h

theorem taskFailures_mem (rs : List (Nat × PollOutcome)) (t : Nat) (e : GoError) :
    (t, e) ∈ taskFailures rs ↔ (t, PollOutcome.returned (some e)) ∈ rs := by
  induction rs with
  | nil => simp [taskFailures]
  | cons r rest ih =>
    obtain ⟨t2, out⟩ := r
    cases out with
    | returned err =>
      cases err with
      | none => simp [taskFailures, ih]
      | some e2 => simp [taskFailures, ih]
    | polling st => simp [taskFailures, ih]
    | stuck => simp [taskFailures, ih]

theorem errgroupWait_none (rs : List (Nat × PollOutcome)) :
    errgroupWait rs = .returned none ↔ ∀ r ∈ rs, r.2 = PollOutcome.returned none := by
  unfold errgroupWait
  constructor
  · intro h
    split at h
    · rename_i hall
      cases hf : firstError (taskFailures rs) with
      | some p => rw [hf] at h; cases h
      | none =>
        have hnil := firstError_none _ hf
        intro r hr
        obtain ⟨t, out⟩ := r
        have hret := List.all_eq_true.mp hall (t, out) hr
        cases out with
        | returned err =>
          cases err with
          | none => rfl
          | some e =>
            have := (taskFailures_mem rs t e).mpr hr
            rw [hnil] at this
            cases this
        | polling st => simp at hret
        | stuck => simp at hret
    · cases h
  · intro h
    have hall : rs.all (fun r => match r.2 with | .returned _ => true | _ => false) = true := by
      rw [List.all_eq_true]
      intro r hr
      rw [h r hr]
    rw [if_pos hall]
    cases hf : firstError (taskFailures rs) with
    | none => rfl
    | some p =>
      obtain ⟨t, e⟩ := p
      have hm := (taskFailures_mem rs t e).mp (firstError_mem _ _ hf)
      have := h _ hm
      cases this

theorem errgroupWait_some (rs : List (Nat × PollOutcome)) (err : GoError)
    (h : errgroupWait rs = .returned (some err)) :
    ∃ r ∈ rs, r.2 = PollOutcome.returned (some err) := by
  unfold errgroupWait at h
  split at h
  · cases hf : firstError (taskFailures rs) with
    | none => rw [hf] at h; cases h
    | some p =>
      obtain ⟨t, e⟩ := p
      rw [hf] at h
      simp only [RunOutcome.returned.injEq, Option.some.injEq] at h
      subst h
      exact ⟨_, (taskFailures_mem rs t e).mp (firstError_mem _ _ hf), rfl⟩
  · cases h

theorem runGroups_cons (fuel : Nat) (noGrace : Bool) (grace : Int)
    (task : ResourceStatus → TaskInput) (g : List ResourceStatus)
    (rest : List (List ResourceStatus)) (hg : g ≠ []) :
    runGroups fuel noGrace grace task (g :: rest) =
      match errgroupWait
        (g.map (fun w => ((task w).finish, taskOutcome fuel noGrace grace task w))) with
      | .returned none =>
        (g.map (fun w => (w, (scaleTask fuel noGrace grace w (task w)).1)) ::
          (runGroups fuel noGrace grace task rest).1,
          (runGroups fuel noGrace grace task rest).2)
      | out => ([g.map (fun w => (w, (scaleTask fuel noGrace grace w (task w)).1))], out) := by
  have hlen : ¬ g.length = 0 := by
    intro h; exact hg (List.eq_nil_of_length_eq_zero h)
  rw [runGroups, if_neg hlen]
  simp only [List.map_map]
  rfl

theorem startedGroups_cons (record : List (ResourceStatus × List Event))
    (tr : List (List (ResourceStatus × List Event))) (out out2 : RunOutcome) :
    startedGroups (record :: tr, out) = record.map Prod.fst :: startedGroups (tr, out2) := by
  simp [startedGroups]

theorem record_names (fuel : Nat) (noGrace : Bool) (grace : Int)
    (task : ResourceStatus → TaskInput) (g : List ResourceStatus) :
    (g.map (fun w => (w, (scaleTask fuel noGrace grace w (task w)).1))).map Prod.fst = g := by
  simp [List.map_map, Function.comp_def]

theorem errgroupWait_returns (rs : List (Nat × PollOutcome))
    (h : ∀ r ∈ rs, ∃ e, r.2 = PollOutcome.returned e) :
    ∃ e, errgroupWait rs = .returned e := by
  have hall : rs.all (fun r => match r.2 with | .returned _ => true | _ => false) = true := by
    rw [List.all_eq_true]
    intro r hr
    obtain ⟨e, he⟩ := h r hr
    rw [he]
  unfold errgroupWait
  rw [if_pos hall]
  cases firstError (taskFailures rs) with
  | none => exact ⟨none, rfl⟩
  | some p => exact ⟨some p.2, rfl⟩

/-- The loop over the groups returns when every task returns. -/
theorem runGroups_returns (fuel : Nat) (noGrace : Bool) (grace : Int)
    (task : ResourceStatus → TaskInput) (groups : List (List ResourceStatus))
    (h : ∀ g ∈ groups, ∀ w ∈ g, ∃ e, taskOutcome fuel noGrace grace task w = .returned e) :
    ∃ e, (runGroups fuel noGrace grace task groups).2 = .returned e := by
  induction groups with
  | nil => exact ⟨none, rfl⟩
  | cons g rest ih =>
    have ihr := ih (fun g2 h2 => h g2 (List.mem_cons_of_mem _ h2))
    by_cases hg : g = []
    · subst hg
      rw [runGroups]
      simpa using ihr
    · rw [runGroups_cons fuel noGrace grace task g rest hg]
      obtain ⟨e, he⟩ := errgroupWait_returns
        (g.map (fun w => ((task w).finish, taskOutcome fuel noGrace grace task w)))
        (fun r hr => by
          obtain ⟨w, hw, rfl⟩ := List.mem_map.mp hr
          exact h g (List.mem_cons_self _ _) w hw)
      rw [he]
      cases e with
      | none => exact ihr
      | some err => exact ⟨some err, rfl⟩

/-- The loop over non-empty groups: the groups started are a prefix of the
groups, every group before the last one started has succeeded in all its
tasks, the run succeeds exactly when every task does, and an error returned
is the error of a task of the last group started. -/
theorem runGroups_spec (fuel : Nat) (noGrace : Bool) (grace : Int)
    (task : ResourceStatus → TaskInput) (groups : List (List ResourceStatus))
    (hne : ∀ g ∈ groups, g ≠ []) :
    ∃ k, k ≤ groups.length ∧
      startedGroups (runGroups fuel noGrace grace task groups) = groups.take k ∧
      (∀ (j : Nat) (g : List ResourceStatus), j + 1 < k → groups[j]? = some g →
        ∀ w ∈ g, taskOutcome fuel noGrace grace task w = .returned none) ∧
      ((runGroups fuel noGrace grace task groups).2 = .returned none ↔
        ∀ g ∈ groups, ∀ w ∈ g, taskOutcome fuel noGrace grace task w = .returned none) ∧
      ((runGroups fuel noGrace grace task groups).2 = .returned none → k = groups.length) ∧
      (∀ err, (runGroups fuel noGrace grace task groups).2 = .returned (some err) →
        0 < k ∧ ∃ g, groups[k - 1]? = some g ∧
          ∃ w ∈ g, taskOutcome fuel noGrace grace task w = .returned (some err)) := by
  induction groups with
  | nil =>
    refine ⟨0, le_refl _, rfl, ?_, ?_, ?_, ?_⟩
    · intro j g hj; omega
    · simp [runGroups]
    · intro _; rfl
    · intro err h; simp [runGroups] at h
  | cons g rest ih =>
    have hg : g ≠ [] := hne g (List.mem_cons_self _ _)
    obtain ⟨k, hk, hstart, hprev, hiff, hall, herr⟩ :=
      ih (fun g2 h2 => hne g2 (List.mem_cons_of_mem _ h2))
    have hcons := runGroups_cons fuel noGrace grace task g rest hg
    have hwait := errgroupWait_none
      (g.map (fun w => ((task w).finish, taskOutcome fuel noGrace grace task w)))
    have hgood : (∀ r ∈ g.map (fun w => ((task w).finish,
        taskOutcome fuel noGrace grace task w)), r.2 = PollOutcome.returned none) ↔
        ∀ w ∈ g, taskOutcome fuel noGrace grace task w = .returned none := by
      constructor
      · intro h w hw
        exact h _ (List.mem_map.mpr ⟨w, hw, rfl⟩)
      · intro h r hr
        obtain ⟨w, hw, rfl⟩ := List.mem_map.mp hr
        exact h w hw
    cases hout : errgroupWait
        (g.map (fun w => ((task w).finish, taskOutcome fuel noGrace grace task w))) with
    | returned e =>
      cases e with
      | none =>
        rw [hout] at hcons
        simp only at hcons
        have hgok := hgood.mp (hwait.mp hout)
        rw [hcons]
        refine ⟨k + 1, by simp; omega, ?_, ?_, ?_, ?_, ?_⟩
        · rw [startedGroups_cons _ _ _ (runGroups fuel noGrace grace task rest).2,
            record_names, List.take_succ_cons]
          congr 1
        · intro j g2 hj hj2
          cases j with
          | zero =>
            simp only [List.getElem?_cons_zero, Option.some.injEq] at hj2
            subst hj2; exact hgok
          | succ j =>
            simp only [List.getElem?_cons_succ] at hj2
            exact hprev j g2 (by omega) hj2
        · simp only [List.forall_mem_cons]
          rw [hiff]
          exact ⟨fun h => ⟨hgok, h⟩, fun h => h.2⟩
        · intro h
          simp only [List.length_cons]
          rw [hall h]
        · intro err h
          obtain ⟨hpos, g2, hg2, hw⟩ := herr err h
          refine ⟨by omega, g2, ?_, hw⟩
          have : k + 1 - 1 = (k - 1) + 1 := by omega
          rw [this, List.getElem?_cons_succ]
          exact hg2
      | some e =>
        rw [hout] at hcons
        simp only at hcons
        rw [hcons]
        obtain ⟨r, hr, hre⟩ := errgroupWait_some _ e hout
        obtain ⟨w, hw, rfl⟩ := List.mem_map.mp hr
        refine ⟨1, by simp, ?_, ?_, ?_, ?_, ?_⟩
        · simp [startedGroups, Function.comp_def]
        · intro j g2 hj; omega
        · constructor
          · intro h; cases h
          · intro h
            have := h g (List.mem_cons_self _ _) w hw
            simp only at hre
            rw [this] at hre
            cases hre
        · intro h; cases h
        · intro err h
          simp only [RunOutcome.returned.injEq, Option.some.injEq] at h
          subst h
          exact ⟨by omega, g, by simp, w, hw, hre⟩
    | pending =>
      rw [hout] at hcons
      simp only at hcons
      rw [hcons]
      refine ⟨1, by simp, ?_, ?_, ?_, ?_, ?_⟩
      · simp [startedGroups, Function.comp_def]
      · intro j g2 hj; omega
      · constructor
        · intro h; cases h
        · intro h
          have := hwait.mpr (hgood.mpr (h g (List.mem_cons_self _ _)))
          rw [hout] at this
          cases this
      · intro h; cases h
      · intro err h; cases h

/-- The loop over non-empty groups returns an error as soon as a group whose
earlier groups all succeeded has returned in all its tasks, one of them with
an error; the groups after it are not started. -/
theorem runGroups_fails (fuel : Nat) (noGrace : Bool) (grace : Int)
    (task : ResourceStatus → TaskInput) (groups : List (List ResourceStatus))
    (hne : ∀ g ∈ groups, g ≠ []) (k : Nat) (g : List ResourceStatus)
    (hk : groups[k]? = some g)
    (hprev : ∀ (j : Nat) (g2 : List ResourceStatus), j < k → groups[j]? = some g2 →
      ∀ w ∈ g2, taskOutcome fuel noGrace grace task w = .returned none)
    (hret : ∀ w ∈ g, ∃ e, taskOutcome fuel noGrace grace task w = .returned e)
    (hfail : ∃ w ∈ g, ∃ e, taskOutcome fuel noGrace grace task w = .returned (some e)) :
    ∃ err, (runGroups fuel noGrace grace task groups).2 = .returned (some err) ∧
      startedGroups (runGroups fuel noGrace grace task groups) = groups.take (k + 1) ∧
      ∃ w ∈ g, taskOutcome fuel noGrace grace task w = .returned (some err) := by
  induction groups generalizing k with
  | nil => simp at hk
  | cons g0 rest ih =>
    have hg0 : g0 ≠ [] := hne g0 (List.mem_cons_self _ _)
    have hcons := runGroups_cons fuel noGrace grace task g0 rest hg0
    cases k with
    | zero =>
      simp only [List.getElem?_cons_zero, Option.some.injEq] at hk
      subst hk
      obtain ⟨e, he⟩ := errgroupWait_returns
        (g0.map (fun w => ((task w).finish, taskOutcome fuel noGrace grace task w)))
        (fun r hr => by
          obtain ⟨w, hw, rfl⟩ := List.mem_map.mp hr
          exact hret w hw)
      cases e with
      | none =>
        exfalso
        obtain ⟨w, hw, e2, hw2⟩ := hfail
        have := (errgroupWait_none _).mp he _
          (List.mem_map.mpr ⟨w, hw, rfl⟩)
        simp only at this
        rw [hw2] at this
        cases this
      | some err =>
        rw [he] at hcons
        simp only at hcons
        obtain ⟨r, hr, hre⟩ := errgroupWait_some _ err he
        obtain ⟨w, hw, rfl⟩ := List.mem_map.mp hr
        rw [hcons]
        exact ⟨err, rfl, by simp [startedGroups, Function.comp_def], w, hw, hre⟩
    | succ k =>
      simp only [List.getElem?_cons_succ] at hk
      have hok : errgroupWait
          (g0.map (fun w => ((task w).finish, taskOutcome fuel noGrace grace task w)))
          = .returned none := by
        rw [errgroupWait_none]
        intro r hr
        obtain ⟨w, hw, rfl⟩ := List.mem_map.mp hr
        exact hprev 0 g0 (by omega) (by simp) w hw
      rw [hok] at hcons
      simp only at hcons
      obtain ⟨err, herr, hstart, hw⟩ := ih (fun g2 h2 => hne g2 (List.mem_cons_of_mem _ h2))
        k hk (fun j g2 hj hj2 => hprev (j + 1) g2 (by omega) (by simpa using hj2))
      rw [hcons]
      refine ⟨err, herr, ?_, hw⟩
      rw [startedGroups_cons _ _ _ (runGroups fuel noGrace grace task rest).2,
        record_names, List.take_succ_cons]
      congr 1

theorem runGroups_entries (fuel : Nat) (noGrace : Bool) (grace : Int)
    (task : ResourceStatus → TaskInput) (groups : List (List ResourceStatus)) :
    ∀ record ∈ (runGroups fuel noGrace grace task groups).1, ∀ entry ∈ record,
      entry.2 = (scaleTask fuel noGrace grace entry.1 (task entry.1)).1 := by
  induction groups with
  | nil => intro record h; simp [runGroups] at h
  | cons g rest ih =>
    by_cases hg : g = []
    · subst hg
      rw [runGroups]
      simpa using ih
    · rw [runGroups_cons fuel noGrace grace task g rest hg]
      have hrec : ∀ entry ∈ g.map (fun w => (w, (scaleTask fuel noGrace grace w (task w)).1)),
          entry.2 = (scaleTask fuel noGrace grace entry.1 (task entry.1)).1 := by
        intro entry he
        obtain ⟨w, _, rfl⟩ := List.mem_map.mp he
        rfl
      intro record hr
      split at hr
      · rcases List.mem_cons.mp hr with rfl | hmem
        · exact hrec
        · exact ih record hmem
      · simp only [List.mem_singleton] at hr
        subst hr
        exact hrec

theorem getAppWorkloads_ordered (newClient : Option GoError) (get : Except GoError Application)
    (ws : List ResourceStatus) (h : getAppWorkloads newClient get = .ok ws) :
    ws.Pairwise (fun a b => a.SyncWave ≥ b.SyncWave) := by
  unfold getAppWorkloads at h
  cases newClient with
  | some err => cases h
  | none =>
    cases get with
    | error err => cases h
    | ok app =>
      simp only [Except.ok.injEq] at h
      rw [← h]
      exact sortSlice_ordered _

/-- An error returned by the task of a workload wraps the error of its patch
or, the patch having succeeded, the error of its poller. -/
theorem scaleTask_error (fuel : Nat) (noGrace : Bool) (grace : Int)
    (task : ResourceStatus → TaskInput) (w : ResourceStatus) (err : GoError)
    (h : taskOutcome fuel noGrace grace task w = .returned (some err)) :
    ∃ inner,
      (patchWorkloadReplicasZero (task w).patchClient (task w).patchResource = some inner ∧
        err = GoError.wrap
          ("patch " ++ w.Kind ++ "/" ++ w.Namespace ++ "/" ++ w.Name ++ " replicas=0: ") inner) ∨
      (patchWorkloadReplicasZero (task w).patchClient (task w).patchResource = none ∧
        (waitPodsDeleted fuel (task w).waitClient w noGrace grace (task w).ticks).2 =
          .returned (some inner) ∧
        err = GoError.wrap
          ("wait pods deleted for " ++ w.Kind ++ "/" ++ w.Namespace ++ "/" ++ w.Name ++ ": ")
          inner) := by
  unfold taskOutcome scaleTask at h
  cases hp : patchWorkloadReplicasZero (task w).patchClient (task w).patchResource with
  | some inner =>
    rw [hp] at h
    simp only [PollOutcome.returned.injEq, Option.some.injEq] at h
    exact ⟨inner, Or.inl ⟨rfl, h.symm⟩⟩
  | none =>
    rw [hp] at h
    simp only at h
    cases hw : (waitPodsDeleted fuel (task w).waitClient w noGrace grace (task w).ticks).2 with
    | returned e =>
      cases e with
      | none => rw [hw] at h; cases h
      | some inner =>
        rw [hw] at h
        simp only [PollOutcome.returned.injEq, Option.some.injEq] at h
        exact ⟨inner, Or.inr ⟨rfl, rfl, h.symm⟩⟩
    | polling st => rw [hw] at h; cases h
    | stuck => rw [hw] at h; cases h

/-- The task of a workload succeeds exactly when its patch succeeds and its
poller then returns success. -/
theorem scaleTask_success (fuel : Nat) (noGrace : Bool) (grace : Int)
    (task : ResourceStatus → TaskInput) (w : ResourceStatus) :
    taskOutcome fuel noGrace grace task w = .returned none ↔
      patchWorkloadReplicasZero (task w).patchClient (task w).patchResource = none ∧
        (waitPodsDeleted fuel (task w).waitClient w noGrace grace (task w).ticks).2 =
          .returned none := by
  unfold taskOutcome scaleTask
  cases hp : patchWorkloadReplicasZero (task w).patchClient (task w).patchResource with
  | some inner => simp
  | none =>
    simp only [true_and]
    cases hw : (waitPodsDeleted fuel (task w).waitClient w noGrace grace (task w).ticks).2 with
    | returned e =>
      cases e with
      | none => simp
      | some inner => simp
    | polling st => simp
    | stuck => simp

/-- The task of a workload returns the error of its patch, or of its poller
when the patch succeeded, wrapped with the name of the workload. -/
theorem scaleTask_fails (fuel : Nat) (noGrace : Bool) (grace : Int)
    (task : ResourceStatus → TaskInput) (w : ResourceStatus) :
    (∀ inner,
      patchWorkloadReplicasZero (task w).patchClient (task w).patchResource = some inner →
      taskOutcome fuel noGrace grace task w = .returned (some (GoError.wrap
        ("patch " ++ w.Kind ++ "/" ++ w.Namespace ++ "/" ++ w.Name ++ " replicas=0: ")
        inner))) ∧
    (∀ inner,
      patchWorkloadReplicasZero (task w).patchClient (task w).patchResource = none →
      (waitPodsDeleted fuel (task w).waitClient w noGrace grace (task w).ticks).2 =
        .returned (some inner) →
      taskOutcome fuel noGrace grace task w = .returned (some (GoError.wrap
        ("wait pods deleted for " ++ w.Kind ++ "/" ++ w.Namespace ++ "/" ++ w.Name ++ ": ")
        inner))) := by
  unfold taskOutcome scaleTask
  refine ⟨?_, ?_⟩
  · intro inner hp
    rw [hp]
  · intro inner hp hw
    rw [hp]
    simp only
    rw [hw]

/-- The events of the task of a workload: the patch call, then the events of
its poller when the patch succeeded, and nothing of the poller otherwise. -/
theorem scaleTask_events (fuel : Nat) (noGrace : Bool) (grace : Int) (w : ResourceStatus)
    (inp : TaskInput) :
    (patchWorkloadReplicasZero inp.patchClient inp.patchResource = none →
      (scaleTask fuel noGrace grace w inp).1 =
        Event.patchResource w ::
          (pollTrace fuel inp.waitClient w noGrace grace inp.ticks).flatten) ∧
    (∀ inner, patchWorkloadReplicasZero inp.patchClient inp.patchResource = some inner →
      ∀ e ∈ (scaleTask fuel noGrace grace w inp).1, e = Event.patchResource w) := by
  unfold scaleTask pollTrace
  cases hc : inp.patchClient with
  | some c =>
    have hp : patchWorkloadReplicasZero (some c) inp.patchResource = some c := rfl
    rw [hp]
    refine ⟨fun h => (by cases h), fun inner _ e he => ?_⟩
    simp at he
  | none =>
    cases hp : patchWorkloadReplicasZero none inp.patchResource with
    | some inner =>
      refine ⟨fun h => (by cases h), fun inner2 _ e he => ?_⟩
      simpa using he
    | none =>
      refine ⟨fun _ => ?_, fun inner h => (by cases h)⟩
      simp only
      split <;> rfl

/-- A poller whose last round given takes the `ctx.Done()` case is not left
polling: it has returned at that round at the latest (or the descendant test
gave no answer before). -/
theorem pollLoop_cancelled (fuel : Nat) (parent : ResourceStatus) (noGrace : Bool)
    (grace : Int) (st : PollState) (ticks : List TickInput) (cancel : TickInput)
    (err : GoError) (hc : cancel.ctxErr = some err) :
    ∀ st2, (pollLoop fuel parent noGrace grace st (ticks ++ [cancel])).2 ≠ .polling st2 := by
  induction ticks generalizing st with
  | nil =>
    intro st2
    have ht : tick fuel parent noGrace grace st cancel = ([], .done (some err)) := by
      unfold tick; simp only [hc]
    have hd := pollLoop_done fuel parent noGrace grace st cancel [] (some err)
      (by rw [ht])
    simp only [List.nil_append]
    rw [hd]
    intro h; cases h
  | cons inp rest ih =>
    intro st2
    simp only [List.cons_append]
    cases hres : (tick fuel parent noGrace grace st inp).2 with
    | next st3 =>
      rw [pollLoop_next fuel parent noGrace grace st st3 inp _ hres]
      exact ih st3 st2
    | done e =>
      rw [pollLoop_done fuel parent noGrace grace st inp _ e hres]
      intro h; cases h
    | stuck =>
      rw [pollLoop]
      cases ht : tick fuel parent noGrace grace st inp with
      | mk evs res =>
        rw [ht] at hres
        simp only at hres
        subst hres
        intro h; cases h

/-- C8: `ScaleDownBySyncWave` returns success exactly when discovery succeeds
and the task of every workload succeeds, a task succeeding exactly when its
patch and then its poller succeed. When every task of the groups before some
group has succeeded and the tasks of that group have returned, one of them
with an error, the run returns the error of a failing task of that group,
which wraps the error of its patch or of its poller, and the groups started
are those up to that group: no later group is started, so none of its
workloads is patched or polled. A poller that meets the cancellation of its
context is not left polling. The groups started are always the first `k`
groups in order, and every task of every group before the last one started
has returned success. -/
theorem scaleDown_outcome (fuel : Nat) (inp : RunInput) (noGrace : Bool) (grace : Int) :
    ((ScaleDownBySyncWave fuel inp noGrace grace).2 = .returned none ↔
      ∃ ws, getAppWorkloads inp.newClient inp.get = .ok ws ∧
        ∀ w ∈ ws, taskOutcome fuel noGrace grace inp.task w = .returned none) ∧
    (∀ err, getAppWorkloads inp.newClient inp.get = .error err →
      ScaleDownBySyncWave fuel inp noGrace grace = ([], .returned (some err))) ∧
    (∀ ws, getAppWorkloads inp.newClient inp.get = .ok ws →
      (∀ w ∈ ws, ∃ e, taskOutcome fuel noGrace grace inp.task w = .returned e) →
      ∃ e, (ScaleDownBySyncWave fuel inp noGrace grace).2 = .returned e) ∧
    (∀ ws, getAppWorkloads inp.newClient inp.get = .ok ws →
      ∃ k, k ≤ (groupWorkloads ws).length ∧
        startedGroups (ScaleDownBySyncWave fuel inp noGrace grace) =
          (groupWorkloads ws).take k ∧
        (∀ (j : Nat) (g : List ResourceStatus), j + 1 < k →
          (groupWorkloads ws)[j]? = some g →
          ∀ w ∈ g, taskOutcome fuel noGrace grace inp.task w = .returned none) ∧
        (∀ err, (ScaleDownBySyncWave fuel inp noGrace grace).2 = .returned (some err) →
          0 < k ∧ ∃ g, (groupWorkloads ws)[k - 1]? = some g ∧
            ∃ w ∈ g, taskOutcome fuel noGrace grace inp.task w = .returned (some err) ∧
              ∃ inner,
                (patchWorkloadReplicasZero (inp.task w).patchClient
                    (inp.task w).patchResource = some inner ∧
                  err = GoError.wrap ("patch " ++ w.Kind ++ "/" ++ w.Namespace ++ "/" ++
                    w.Name ++ " replicas=0: ") inner) ∨
                (patchWorkloadReplicasZero (inp.task w).patchClient
                    (inp.task w).patchResource = none ∧
                  (waitPodsDeleted fuel (inp.task w).waitClient w noGrace grace
                    (inp.task w).ticks).2 = .returned (some inner) ∧
                  err = GoError.wrap ("wait pods deleted for " ++ w.Kind ++ "/" ++
                    w.Namespace ++ "/" ++ w.Name ++ ": ") inner))) ∧
    (∀ ws, getAppWorkloads inp.newClient inp.get = .ok ws →
      ∀ (k : Nat) (g : List ResourceStatus), (groupWorkloads ws)[k]? = some g →
      (∀ (j : Nat) (g2 : List ResourceStatus), j < k → (groupWorkloads ws)[j]? = some g2 →
        ∀ w ∈ g2, taskOutcome fuel noGrace grace inp.task w = .returned none) →
      (∀ w ∈ g, ∃ e, taskOutcome fuel noGrace grace inp.task w = .returned e) →
      (∃ w ∈ g, ∃ e, taskOutcome fuel noGrace grace inp.task w = .returned (some e)) →
      ∃ err, (ScaleDownBySyncWave fuel inp noGrace grace).2 = .returned (some err) ∧
        startedGroups (ScaleDownBySyncWave fuel inp noGrace grace) =
          (groupWorkloads ws).take (k + 1) ∧
        ∃ w ∈ g, taskOutcome fuel noGrace grace inp.task w = .returned (some err)) ∧
    (∀ w,
      (taskOutcome fuel noGrace grace inp.task w = .returned none ↔
        patchWorkloadReplicasZero (inp.task w).patchClient (inp.task w).patchResource
            = none ∧
          (waitPodsDeleted fuel (inp.task w).waitClient w noGrace grace
            (inp.task w).ticks).2 = .returned none) ∧
      (∀ inner,
        patchWorkloadReplicasZero (inp.task w).patchClient (inp.task w).patchResource
            = some inner →
        taskOutcome fuel noGrace grace inp.task w = .returned (some (GoError.wrap
          ("patch " ++ w.Kind ++ "/" ++ w.Namespace ++ "/" ++ w.Name ++ " replicas=0: ")
          inner))) ∧
      (∀ inner,
        patchWorkloadReplicasZero (inp.task w).patchClient (inp.task w).patchResource
            = none →
        (waitPodsDeleted fuel (inp.task w).waitClient w noGrace grace
          (inp.task w).ticks).2 = .returned (some inner) →
        taskOutcome fuel noGrace grace inp.task w = .returned (some (GoError.wrap
          ("wait pods deleted for " ++ w.Kind ++ "/" ++ w.Namespace ++ "/" ++ w.Name ++ ": ")
          inner)))) ∧
    (∀ record ∈ (ScaleDownBySyncWave fuel inp noGrace grace).1, ∀ entry ∈ record,
      (patchWorkloadReplicasZero (inp.task entry.1).patchClient
          (inp.task entry.1).patchResource = none →
        entry.2 = Event.patchResource entry.1 ::
          (pollTrace fuel (inp.task entry.1).waitClient entry.1 noGrace grace
            (inp.task entry.1).ticks).flatten) ∧
      (∀ inner, patchWorkloadReplicasZero (inp.task entry.1).patchClient
          (inp.task entry.1).patchResource = some inner →
        ∀ e ∈ entry.2, e = Event.patchResource entry.1)) ∧
    (∀ (w : ResourceStatus) (newClient : Option GoError) (ticks : List TickInput)
      (cancel : TickInput) (err : GoError), cancel.ctxErr = some err →
      ∀ st, (waitPodsDeleted fuel newClient w noGrace grace (ticks ++ [cancel])).2 ≠
        .polling st) := by
  have hcancel : ∀ (w : ResourceStatus) (newClient : Option GoError)
      (ticks : List TickInput) (cancel : TickInput) (err : GoError),
      cancel.ctxErr = some err →
      ∀ st, (waitPodsDeleted fuel newClient w noGrace grace (ticks ++ [cancel])).2 ≠
        .polling st := by
    intro w newClient ticks cancel err hc st
    cases newClient with
    | some e => intro h; cases h
    | none => exact pollLoop_cancelled fuel w noGrace grace _ ticks cancel err hc st
  have hfail : ∀ ws, getAppWorkloads inp.newClient inp.get = .ok ws →
      ∀ (k : Nat) (g : List ResourceStatus), (groupWorkloads ws)[k]? = some g →
      (∀ (j : Nat) (g2 : List ResourceStatus), j < k → (groupWorkloads ws)[j]? = some g2 →
        ∀ w ∈ g2, taskOutcome fuel noGrace grace inp.task w = .returned none) →
      (∀ w ∈ g, ∃ e, taskOutcome fuel noGrace grace inp.task w = .returned e) →
      (∃ w ∈ g, ∃ e, taskOutcome fuel noGrace grace inp.task w = .returned (some e)) →
      ∃ err, (ScaleDownBySyncWave fuel inp noGrace grace).2 = .returned (some err) ∧
        startedGroups (ScaleDownBySyncWave fuel inp noGrace grace) =
          (groupWorkloads ws).take (k + 1) ∧
        ∃ w ∈ g, taskOutcome fuel noGrace grace inp.task w = .returned (some err) := by
    intro ws hws k g hk hprev hret hbad
    have hrun : ScaleDownBySyncWave fuel inp noGrace grace =
        runGroups fuel noGrace grace inp.task (groupWorkloads ws) := by
      unfold ScaleDownBySyncWave; rw [hws]
    rw [hrun]
    exact runGroups_fails fuel noGrace grace inp.task (groupWorkloads ws)
      (groupWorkloads_nonempty ws (getAppWorkloads_ordered _ _ ws hws)) k g hk hprev hret hbad
  have htask := fun w => And.intro (scaleTask_success fuel noGrace grace inp.task w)
    (scaleTask_fails fuel noGrace grace inp.task w)
  have hevents : ∀ record ∈ (ScaleDownBySyncWave fuel inp noGrace grace).1,
      ∀ entry ∈ record,
      (patchWorkloadReplicasZero (inp.task entry.1).patchClient
          (inp.task entry.1).patchResource = none →
        entry.2 = Event.patchResource entry.1 ::
          (pollTrace fuel (inp.task entry.1).waitClient entry.1 noGrace grace
            (inp.task entry.1).ticks).flatten) ∧
      (∀ inner, patchWorkloadReplicasZero (inp.task entry.1).patchClient
          (inp.task entry.1).patchResource = some inner →
        ∀ e ∈ entry.2, e = Event.patchResource entry.1) := by
    unfold ScaleDownBySyncWave
    cases getAppWorkloads inp.newClient inp.get with
    | error err => intro record h; simp at h
    | ok ws =>
      intro record hr entry he
      rw [runGroups_entries fuel noGrace grace inp.task _ record hr entry he]
      exact scaleTask_events fuel noGrace grace entry.1 (inp.task entry.1)
  cases hd : getAppWorkloads inp.newClient inp.get with
  | error e =>
    have hrun : ScaleDownBySyncWave fuel inp noGrace grace = ([], .returned (some e)) := by
      unfold ScaleDownBySyncWave; rw [hd]
    rw [hd] at hfail
    refine ⟨?_, ?_, ?_, ?_, hfail, htask, hevents, hcancel⟩
    · rw [hrun]
      constructor
      · intro h; cases h
      · rintro ⟨ws, hws, _⟩; cases hws
    · intro err herr
      cases herr
      exact hrun
    · intro ws hws; cases hws
    · intro ws hws; cases hws
  | ok ws =>
    have hrun : ScaleDownBySyncWave fuel inp noGrace grace =
        runGroups fuel noGrace grace inp.task (groupWorkloads ws) := by
      unfold ScaleDownBySyncWave; rw [hd]
    have hne := groupWorkloads_nonempty ws (getAppWorkloads_ordered _ _ ws hd)
    obtain ⟨k, hk, hstart, hprev, hiff, _, herr⟩ :=
      runGroups_spec fuel noGrace grace inp.task (groupWorkloads ws) hne
    rw [hd] at hfail
    rw [hrun] at hfail hevents ⊢
    refine ⟨?_, ?_, ?_, ?_, hfail, htask, hevents, hcancel⟩
    · rw [hiff]
      constructor
      · intro h
        refine ⟨ws, rfl, fun w hw => ?_⟩
        obtain ⟨g, hg, hwg⟩ := (mem_groupWorkloads ws w).mpr hw
        exact h g hg w hwg
      · rintro ⟨ws2, hws2, h⟩ g hg w hw
        cases hws2
        exact h w ((mem_groupWorkloads ws w).mp ⟨g, hg, hw⟩)
    · intro err h; cases h
    · intro ws2 hws2 hret
      cases hws2
      exact runGroups_returns fuel noGrace grace inp.task (groupWorkloads ws)
        (fun g hg w hw => hret w ((mem_groupWorkloads ws w).mp ⟨g, hg, hw⟩))
    · intro ws2 hws2
      cases hws2
      refine ⟨k, hk, hstart, hprev, ?_⟩
      intro err h
      obtain ⟨hpos, g, hg, w, hw, hout⟩ := herr err h
      exact ⟨hpos, g, hg, w, hw, hout, scaleTask_error fuel noGrace grace inp.task w err hout⟩

theorem scaleDown_outcome_witness :
    taskOutcome 3 true 30 boomRun.task storeWorkload =
      .polling { firstLoop := true, haveK8sCli := false } ∧
    ∃ err, (ScaleDownBySyncWave 3 boomRun true 30).2 = .returned (some err) ∧
      startedGroups (ScaleDownBySyncWave 3 boomRun true 30) =
        (groupWorkloads [sampleWorkload, storeWorkload]).take (0 + 1) ∧
      ∃ w ∈ [sampleWorkload],
        taskOutcome 3 true 30 boomRun.task w = .returned (some err) :=
  ⟨by decide,
    (scaleDown_outcome 3 boomRun true 30).2.2.2.2.1 [sampleWorkload, storeWorkload] rfl
      0 [sampleWorkload] (by decide) (fun j _ hj => absurd hj (Nat.not_lt_zero j))
      (fun w hw => by
        rw [List.mem_singleton.mp hw]
        exact ⟨_, (by decide : taskOutcome 3 true 30 boomRun.task sampleWorkload =
          .returned (some (GoError.wrap "patch Deployment/game/lobby replicas=0: "
            (GoError.leaf "rpc error: code = PermissionDenied" false))))⟩)
      ⟨sampleWorkload, List.mem_singleton.mpr rfl, _,
        (by decide : taskOutcome 3 true 30 boomRun.task sampleWorkload =
          .returned (some (GoError.wrap "patch Deployment/game/lobby replicas=0: "
            (GoError.leaf "rpc error: code = PermissionDenied" false))))⟩⟩

/-! ## Termination of the descendant test -/

/-- On the tree with a cycle the descendant test gives no answer, whatever
the number of nested calls allowed: every call on the Pod calls itself on the
same Pod. -/
theorem isChildNode_loopPod (fuel : Nat) :
    isChildNode fuel loopTree (some loopPod) (some sampleDeployment) = none := by
  induction fuel with
  | zero => rfl
  | succ k ih =>
    have hfind : loopTree.FindNode "" "Pod" "game" "lobby-7d9-x2k" = some loopPod := by decide
    have hid : ¬ (loopPod.Name = sampleDeployment.Name ∧ loopPod.Kind = sampleDeployment.Kind ∧
        loopPod.Namespace = sampleDeployment.Namespace ∧
        loopPod.Group = sampleDeployment.Group) := by decide
    rw [isChildNode, if_neg hid]
    show parentRefsLoop loopTree sampleDeployment
      (fun pn => isChildNode k loopTree pn (some sampleDeployment))
      [{ Group := "", Kind := "Pod", Namespace := "game", Name := "lobby-7d9-x2k" }] = none
    rw [parentRefsLoop, if_neg (by decide)]
    simp only [hfind, ih]

/-- C12, as stated, fails: on a tree whose parent references form a cycle (a
Pod that is its own parent) `isChildNode` returns no boolean for any number
of nested calls; the recursion has no guard against revisiting a node. -/
theorem isChildNode_cycle_diverges :
    ¬ ∃ fuel, (isChildNode fuel loopTree (some loopPod) (some sampleDeployment)).isSome
      = true := by
  rintro ⟨fuel, h⟩
  rw [isChildNode_loopPod fuel] at h
  cases h

/-- C12, amended: on every tree whose parent references are acyclic, for
every node and target (nil included), `isChildNode` terminates and returns a
boolean once enough nested calls are allowed. -/
theorem isChildNode_terminates (tree : ApplicationTree) (h : Acyclic tree)
    (node target : Option ResourceNode) :
    ∃ F, ∀ fuel, F ≤ fuel → ∃ b, isChildNode fuel tree node target = some b := by
  cases node with
  | none =>
    refine ⟨1, fun fuel hfuel => ⟨false, ?_⟩⟩
    obtain ⟨k, rfl⟩ : ∃ k, fuel = k + 1 := ⟨fuel - 1, by omega⟩
    exact isChildNode_nil k tree target
  | some n =>
    cases target with
    | none =>
      refine ⟨1, fun fuel hfuel => ⟨false, ?_⟩⟩
      obtain ⟨k, rfl⟩ : ∃ k, fuel = k + 1 := ⟨fuel - 1, by omega⟩
      simp [isChildNode]
    | some t =>
      obtain ⟨F, hF⟩ := isChildNode_spec tree t n (acc_of_acyclic h n)
      refine ⟨F, fun fuel hfuel => ?_⟩
      obtain ⟨b, hb, _⟩ := hF fuel hfuel
      exact ⟨b, hb⟩

theorem isChildNode_terminates_witness :
    Acyclic sampleTree ∧
    ∃ F, ∀ fuel, F ≤ fuel →
      ∃ b, isChildNode fuel sampleTree (some samplePod) (some sampleDeployment) = some b :=
  ⟨acyclic_of_rank sampleTree sampleRank (by decide),
    isChildNode_terminates sampleTree (acyclic_of_rank sampleTree sampleRank (by decide))
      (some samplePod) (some sampleDeployment)⟩

/-! ## How often the cluster handle is built -/

theorem clientCount_append (a b : List Event) :
    clientCount (a ++ b) = clientCount a + clientCount b := by
  simp [clientCount, List.filter_append]

theorem clientCount_deleteLoop (delete : Nat → Option GoError) (grace : Int)
    (pods : List ResourceNode) (i : Nat) :
    (forceDeleteLoop delete grace i pods).1.filter Event.isNewK8sClient = [] := by
  rw [List.filter_eq_nil_iff]
  intro e he
  obtain ⟨p, _, rfl⟩ := forceDeleteLoop_events delete grace pods i e he
  simp [Event.isNewK8sClient]

theorem forceDelete_clients (grace : Int) (st : PollState) (inp : TickInput)
    (pods : List ResourceNode) : clientCount (forceDelete grace st inp pods).1 ≤ 1 := by
  cases happ : inp.app with
  | error err =>
    have hfd : forceDelete grace st inp pods = ([Event.getApp], .done (some err)) := by
      unfold forceDelete; simp only [happ]
    rw [hfd]; simp [clientCount, Event.isNewK8sClient]
  | ok app =>
    by_cases hk : st.haveK8sCli = true ∨ inp.k8s = none
    · rw [forceDelete_pass grace st inp pods app happ hk]
      unfold clientCount
      by_cases hh : st.haveK8sCli = true
      · simp [hh, List.filter_cons, Event.isNewK8sClient, clientCount_deleteLoop]
      · simp [hh, List.filter_cons, Event.isNewK8sClient, clientCount_deleteLoop]
    · push_neg at hk
      obtain ⟨hh, hne⟩ := hk
      have hh2 : st.haveK8sCli = false := by simpa using hh
      obtain ⟨err, herr⟩ := Option.ne_none_iff_exists'.mp hne
      have hfd : forceDelete grace st inp pods =
          ([Event.getApp, Event.newK8sClient app.Server], .done (some err)) := by
        unfold forceDelete
        simp only [happ, hh2, herr, Bool.false_eq_true, if_false]
      rw [hfd]; simp [clientCount, Event.isNewK8sClient]

/-- A tick builds at most one handle, and only in the force-delete block,
after it has reported pods left. -/
theorem tick_clients (fuel : Nat) (parent : ResourceStatus) (noGrace : Bool) (grace : Int)
    (st : PollState) (inp : TickInput) :
    clientCount (tick fuel parent noGrace grace st inp).1 ≤ 1 ∧
    (0 < clientCount (tick fuel parent noGrace grace st inp).1 →
      (noGrace && st.firstLoop) = true ∧
        observedPods (tick fuel parent noGrace grace st inp).1) := by
  rcases tick_cases fuel parent noGrace grace st inp with
    ⟨hev, _⟩ | ⟨pods, podNodes, hp, hf, ht⟩ | ⟨pods, _, _, ht⟩
  · have hzero : clientCount (tick fuel parent noGrace grace st inp).1 = 0 := by
      unfold clientCount
      rw [List.length_eq_zero, List.filter_eq_nil_iff]
      intro e he
      rcases hev e he with rfl | rfl <;> simp [Event.isNewK8sClient]
    exact ⟨by omega, fun h => (by omega)⟩
  · have hcnt : clientCount (tick fuel parent noGrace grace st inp).1 =
        clientCount (forceDelete grace st inp podNodes).1 := by
      rw [ht]; simp [clientCount, List.filter_cons, Event.isNewK8sClient]
    have hobs : observedPods (tick fuel parent noGrace grace st inp).1 := by
      rw [ht]; exact ⟨pods, Nat.pos_of_ne_zero hp, by simp⟩
    have := forceDelete_clients grace st inp podNodes
    exact ⟨by omega, fun _ => ⟨hf, hobs⟩⟩
  · have hzero : clientCount (tick fuel parent noGrace grace st inp).1 = 0 := by
      rw [ht]; simp [clientCount, List.filter_cons, Event.isNewK8sClient]
    exact ⟨by omega, fun h => (by omega)⟩

theorem pollLoop_clients_quiet (fuel : Nat) (parent : ResourceStatus) (noGrace : Bool)
    (grace : Int) (st : PollState) (ticks : List TickInput)
    (hq : (noGrace && st.firstLoop) = false) :
    clientCount (pollLoop fuel parent noGrace grace st ticks).1.flatten = 0 := by
  induction ticks with
  | nil => simp [pollLoop, clientCount]
  | cons inp rest ih =>
    obtain ⟨_, _, hnx, _⟩ := tick_summary fuel parent noGrace grace st inp
    obtain ⟨_, hpos⟩ := tick_clients fuel parent noGrace grace st inp
    have h0 : clientCount (tick fuel parent noGrace grace st inp).1 = 0 := by
      by_contra hne
      have := (hpos (Nat.pos_of_ne_zero hne)).1
      rw [hq] at this
      cases this
    by_cases hn : ∃ st2, (tick fuel parent noGrace grace st inp).2 = .next st2
    · obtain ⟨st2, h2⟩ := hn
      have hst : st2 = st := (hnx st2 h2).2.2 hq
      subst hst
      rw [pollLoop_next fuel parent noGrace grace st2 st2 inp rest h2]
      simp only [List.flatten_cons]
      rw [clientCount_append, h0, ih]
    · push_neg at hn
      rw [pollLoop_stop fuel parent noGrace grace st inp rest hn]
      simp only [List.flatten_cons, List.flatten_nil, List.append_nil]
      exact h0

/-- One run of the poller builds at most one handle, and a tick that builds
one ran with force-delete enabled and reported pods left. -/
theorem pollLoop_clients (fuel : Nat) (parent : ResourceStatus) (noGrace : Bool)
    (grace : Int) (st : PollState) (ticks : List TickInput) :
    clientCount (pollLoop fuel parent noGrace grace st ticks).1.flatten ≤ 1 ∧
    (∀ evs ∈ (pollLoop fuel parent noGrace grace st ticks).1, 0 < clientCount evs →
      noGrace = true ∧ observedPods evs) := by
  induction ticks generalizing st with
  | nil => simp [pollLoop, clientCount]
  | cons inp rest ih =>
    obtain ⟨_, _, hnx, _⟩ := tick_summary fuel parent noGrace grace st inp
    obtain ⟨hle, hpos⟩ := tick_clients fuel parent noGrace grace st inp
    have hfirst : 0 < clientCount (tick fuel parent noGrace grace st inp).1 →
        noGrace = true ∧ observedPods (tick fuel parent noGrace grace st inp).1 := by
      intro h
      obtain ⟨hf, hobs⟩ := hpos h
      exact ⟨(Bool.and_eq_true _ _ ▸ hf : noGrace = true ∧ st.firstLoop = true).1, hobs⟩
    by_cases hn : ∃ st2, (tick fuel parent noGrace grace st inp).2 = .next st2
    · obtain ⟨st2, h2⟩ := hn
      obtain ⟨_, hforce, hsame⟩ := hnx st2 h2
      rw [pollLoop_next fuel parent noGrace grace st st2 inp rest h2]
      refine ⟨?_, ?_⟩
      · simp only [List.flatten_cons]
        rw [clientCount_append]
        by_cases hf : (noGrace && st.firstLoop) = true
        · have hq : (noGrace && st2.firstLoop) = false := by
            rw [(hforce hf).1]; simp
          have := pollLoop_clients_quiet fuel parent noGrace grace st2 rest hq
          omega
        · have hf2 : (noGrace && st.firstLoop) = false := by simpa using hf
          have h0 : clientCount (tick fuel parent noGrace grace st inp).1 = 0 := by
            by_contra hne
            have := (hpos (Nat.pos_of_ne_zero hne)).1
            exact hf this
          have := (ih st2).1
          omega
      · intro evs hevs hc
        rcases List.mem_cons.mp hevs with rfl | hmem
        · exact hfirst hc
        · exact (ih st2).2 evs hmem hc
    · push_neg at hn
      rw [pollLoop_stop fuel parent noGrace grace st inp rest hn]
      refine ⟨by simpa using hle, ?_⟩
      intro evs hevs hc
      simp only [List.mem_singleton] at hevs
      subst hevs
      exact hfirst hc

theorem waitPodsDeleted_clients (fuel : Nat) (newClient : Option GoError)
    (parent : ResourceStatus) (noGrace : Bool) (grace : Int) (ticks : List TickInput) :
    clientCount (waitPodsDeleted fuel newClient parent noGrace grace ticks).1.flatten ≤ 1 := by
  cases newClient with
  | some err => simp [waitPodsDeleted, clientCount]
  | none => exact (pollLoop_clients fuel parent noGrace grace _ ticks).1

/-- The task of one workload builds at most one handle. -/
theorem scaleTask_clients (fuel : Nat) (noGrace : Bool) (grace : Int) (w : ResourceStatus)
    (inp : TaskInput) : clientCount (scaleTask fuel noGrace grace w inp).1 ≤ 1 := by
  have hpatch : clientCount (match inp.patchClient with
      | some _ => []
      | none => [Event.patchResource w]) = 0 := by
    cases inp.patchClient <;> simp [clientCount, Event.isNewK8sClient]
  have hwait := waitPodsDeleted_clients fuel inp.waitClient w noGrace grace inp.ticks
  unfold scaleTask
  cases patchWorkloadReplicasZero inp.patchClient inp.patchResource with
  | some err =>
    simp only
    omega
  | none =>
    simp only
    split <;> (simp only [clientCount_append]; omega)

theorem clientCount_entries (entries : List (ResourceStatus × List Event))
    (h : ∀ entry ∈ entries, clientCount entry.2 ≤ 1) :
    clientCount (entries.map Prod.snd).flatten ≤ entries.length := by
  induction entries with
  | nil => simp [clientCount]
  | cons e rest ih =>
    have h1 := h e (List.mem_cons_self _ _)
    have h2 := ih (fun entry he => h entry (List.mem_cons_of_mem _ he))
    simp only [List.map_cons, List.flatten_cons, List.length_cons]
    rw [clientCount_append]
    omega

/-- C11, as stated, fails: in a run on two workloads that each need a
force-delete pass, `newK8sClient` is called twice, once by the poller of each
workload; the handle is a variable of one call of `waitPodsDeleted`. -/
theorem newK8sClient_twice_in_run :
    ¬ clientCount (runEvents (ScaleDownBySyncWave 3 pairRun true 30)) ≤ 1 := by
  decide

/-- C11, amended: one call of `waitPodsDeleted` builds the handle at most
once, in a tick that ran with force-delete enabled and reported pods left; so
within one run of `ScaleDownBySyncWave` the task of each workload builds it
at most once, and the run builds it at most as many times as it started
workloads. -/
theorem newK8sClient_once_per_workload (fuel : Nat) (inp : RunInput) (noGrace : Bool)
    (grace : Int) :
    (∀ newClient parent ticks,
      clientCount (pollTrace fuel newClient parent noGrace grace ticks).flatten ≤ 1 ∧
      ∀ evs ∈ pollTrace fuel newClient parent noGrace grace ticks, 0 < clientCount evs →
        noGrace = true ∧ observedPods evs) ∧
    (∀ record ∈ (ScaleDownBySyncWave fuel inp noGrace grace).1, ∀ entry ∈ record,
      clientCount entry.2 ≤ 1) ∧
    clientCount (runEvents (ScaleDownBySyncWave fuel inp noGrace grace)) ≤
      (startedGroups (ScaleDownBySyncWave fuel inp noGrace grace)).flatten.length := by
  have hentries : ∀ record ∈ (ScaleDownBySyncWave fuel inp noGrace grace).1,
      ∀ entry ∈ record, clientCount entry.2 ≤ 1 := by
    unfold ScaleDownBySyncWave
    cases getAppWorkloads inp.newClient inp.get with
    | error err => intro record h; simp at h
    | ok ws =>
      intro record hr entry he
      rw [runGroups_entries fuel noGrace grace inp.task _ record hr entry he]
      exact scaleTask_clients fuel noGrace grace entry.1 (inp.task entry.1)
  refine ⟨?_, hentries, ?_⟩
  · intro newClient parent ticks
    cases newClient with
    | some err =>
      have htr : pollTrace fuel (some err) parent noGrace grace ticks = [] := rfl
      rw [htr]
      exact ⟨by simp [clientCount], fun evs h => by cases h⟩
    | none => exact pollLoop_clients fuel parent noGrace grace _ ticks
  · have hlen : (startedGroups (ScaleDownBySyncWave fuel inp noGrace grace)).flatten.length =
        (ScaleDownBySyncWave fuel inp noGrace grace).1.flatten.length := by
      unfold startedGroups
      generalize (ScaleDownBySyncWave fuel inp noGrace grace).1 = tr
      induction tr with
      | nil => rfl
      | cons r rest ih => simp [ih]
    rw [hlen]
    unfold runEvents
    apply clientCount_entries
    intro entry he
    obtain ⟨record, hr, hmem⟩ := List.mem_flatten.mp he
    exact hentries record hr entry hmem

end ArgocdScale
